import Mathlib

/-!
Verification of the pybgapi codec, I/O dispatch and reliable framer.

The definitions below are a shallow embedding of the Python sources
`bgapi/serdeser.py`, `bgapi/apiparser.py`, `bgapi/bglib.py` and
`bgapi/robustconnector.py`.  Bytes are modelled as natural numbers below
256, Python byte strings as `List Nat`, Python text as `String` (or
`List Char` where character-level processing happens), Python integers as
`Int`, and raising an exception as returning `Except.error` with a
constructor naming the Python exception class.
-/

namespace BGApi

deriving instance DecidableEq for Except

/-- The Python exception kinds the modelled code can raise. -/
inductive PyErr where
  | keyError
  | nameError
  | attributeError
  | typeError
  | valueError
  | indexError
  | structError
  | binasciiError
  | apiMissing (device_id : Nat)
  | eventMissing (class_id event_id : Nat)
  deriving DecidableEq, Repr

/-- `DeserializerApiMissingError` and `DeserializerEventMissingError` are the
only exceptions deriving from `DeserializerError` in `serdeser.py`; a plain
`KeyError` is not one of them. -/
def isDeserializerError : PyErr → Bool
  | .apiMissing _ => true
  | .eventMissing _ _ => true
  | _ => false

/-- A Python runtime value as it flows through the codec: an `int`, a
`bytes` object, a `str`, or `None`. -/
inductive PyValue where
  | int (i : Int)
  | bytes (bs : List Nat)
  | str (s : String)
  | none
  deriving DecidableEq, Repr

/-- Python truthiness of `v != 0` (`ERRORCODE_SUCCESS`): comparing a
non-`int` value with `0` is `True` in Python. -/
def pyNeZero : PyValue → Bool
  | .int i => i ≠ 0
  | _ => true


/-! ## Little-endian byte packing (the `struct` module fragment in use) -/

/-- Little-endian bytes of `n`, `w` bytes wide (`struct.pack` for the
unsigned codes `B H I Q`, value range already checked by the caller). -/
def leBytes : Nat → Nat → List Nat
  | 0, _ => []
  | w + 1, n => n % 256 :: leBytes w (n / 256)

/-- Value of a little-endian byte list (`struct.unpack` for `B H I Q`). -/
def leValue : List Nat → Nat
  | [] => 0
  | b :: bs => b + 256 * leValue bs

/-- `struct.pack` for an unsigned code of width `w`: rejects values outside
`[0, 2^(8w))` with `struct.error`, otherwise emits `w` little-endian bytes. -/
def packUnsigned (w : Nat) (i : Int) : Except PyErr (List Nat) :=
  if 0 ≤ i ∧ i < (2 : Int) ^ (8 * w) then .ok (leBytes w i.toNat)
  else .error .structError

/-- `struct.pack` for a signed code of width `w`: rejects values outside
`[-2^(8w-1), 2^(8w-1))`, otherwise emits the two's complement little-endian
bytes. -/
def packSigned (w : Nat) (i : Int) : Except PyErr (List Nat) :=
  if -(2 : Int) ^ (8 * w - 1) ≤ i ∧ i < (2 : Int) ^ (8 * w - 1) then
    .ok (leBytes w (i.emod ((2 : Int) ^ (8 * w))).toNat)
  else .error .structError

/-- `struct.unpack` for an unsigned code: the little-endian value. -/
def unpackUnsigned (bs : List Nat) : Int := (leValue bs : Int)

/-- `struct.unpack` for a signed code of width `w`: two's complement
interpretation of the little-endian value. -/
def unpackSigned (w : Nat) (bs : List Nat) : Int :=
  let u : Int := (leValue bs : Int)
  if u < (2 : Int) ^ (8 * w - 1) then u else u - (2 : Int) ^ (8 * w)

/-- Value of a hexadecimal digit character, as accepted by
`binascii.unhexlify` (both cases). -/
def hexVal (c : Char) : Option Nat :=
  if 48 ≤ c.toNat ∧ c.toNat ≤ 57 then some (c.toNat - 48)
  else if 97 ≤ c.toNat ∧ c.toNat ≤ 102 then some (c.toNat - 87)
  else if 65 ≤ c.toNat ∧ c.toNat ≤ 70 then some (c.toNat - 55)
  else none

/-- `binascii.unhexlify`: pairs of hex digits to bytes; odd length or a
non-hex character raises (`binascii.Error`, a `ValueError`). -/
def unhexlify : List Char → Except PyErr (List Nat)
  | [] => .ok []
  | [_] => .error .binasciiError
  | c1 :: c2 :: rest =>
    match hexVal c1, hexVal c2 with
    | some h, some l =>
      match unhexlify rest with
      | .ok bs => .ok ((16 * h + l) :: bs)
      | .error e => .error e
    | _, _ => .error .binasciiError

/-- Lower-case hex digit character for `n < 16` (`"{:02x}".format`). -/
def hexChar (n : Nat) : Char :=
  if n < 10 then Char.ofNat (48 + n) else Char.ofNat (87 + n)

/-- The two lower-case hex digits of a byte (`"{:02x}".format(b)`). -/
def hexPair (b : Nat) : List Char := [hexChar (b / 16), hexChar (b % 16)]

/-- Python `str.split(sep)` for a one-character separator: splitting at
every occurrence, keeping empty chunks, never returning an empty list. -/
def pySplit (sep : Char) : List Char → List (List Char)
  | [] => [[]]
  | c :: rest =>
    if c = sep then [] :: pySplit sep rest
    else
      match pySplit sep rest with
      | chunk :: chunks => (c :: chunk) :: chunks
      | [] => [[c]]

/-- Python `sep.join(chunks)` for a one-character separator. -/
def joinSep (sep : Char) : List (List Char) → List Char
  | [] => []
  | [c] => c
  | c :: cs => c ++ sep :: joinSep sep cs

/-- Decimal digit characters of `n`, as produced by Python `str(n)` for a
non-negative integer. -/
def decChars (n : Nat) : List Char :=
  if _h : n < 10 then [hexChar n]
  else decChars (n / 10) ++ [hexChar (n % 10)]
  decreasing_by exact Nat.div_lt_self (by omega) (by omega)

/-- Digit accumulation of Python `int(s, base)` over already-validated
characters; digit grouping underscores are not modelled. -/
def parseDigits (base : Nat) : List Char → Nat → Option Nat
  | [], acc => some acc
  | c :: rest, acc =>
    match hexVal c with
    | some d => if d < base then parseDigits base rest (base * acc + d) else none
    | none => none


/-- Python `str.strip()`: whitespace removed from both ends. -/
def pyStrip (cs : List Char) : List Char :=
  ((cs.dropWhile Char.isWhitespace).reverse.dropWhile Char.isWhitespace).reverse

/-- Sign handling of Python `int(s, base)` on a stripped string. -/
def pyIntOfChars (base : Nat) (cs : List Char) : Except PyErr Int :=
  match cs with
  | [] => .error .valueError
  | c :: rest =>
    if c = '-' then
      match (if rest.isEmpty then Option.none else parseDigits base rest 0) with
      | some n => .ok (-(n : Int))
      | Option.none => .error .valueError
    else if c = '+' then
      match (if rest.isEmpty then Option.none else parseDigits base rest 0) with
      | some n => .ok ((n : Int))
      | Option.none => .error .valueError
    else
      match parseDigits base (c :: rest) 0 with
      | some n => .ok ((n : Int))
      | Option.none => .error .valueError

/-- `apiparser.toInt`: strings are stripped and parsed with an `0x`/`0b`
radix override, everything else goes through Python `int()` (which accepts
`int` and ASCII-digit `bytes`, and rejects `None`). -/
def toInt (v : PyValue) : Except PyErr Int :=
  match v with
  | .int i => .ok i
  | .str s =>
    let t := pyStrip s.data
    if t.take 2 = ['0', 'x'] then pyIntOfChars 16 (t.drop 2)
    else if t.take 2 = ['0', 'b'] then pyIntOfChars 2 (t.drop 2)
    else pyIntOfChars 10 t
  | .bytes bs => pyIntOfChars 10 (pyStrip (bs.map Char.ofNat))
  | .none => .error .typeError

/-! ## The API model (`apiparser.py`)

The classes `ApiParameter`, `ApiEnum`/`ApiDefine`, `ApiCommand`, `ApiEvent`,
`ApiClass` and `ParsedApi` become plain structures.  Python dicts keyed by
both name and numeric index are modelled as association lists in insertion
order, with lookups taking the *last* matching entry (dict overwrite
semantics). -/

/-- The recognized wire-format tags (`type` attribute of a `param`). -/
inductive ParamFormat where
  | int8 | uint8 | int16 | uint16 | int32 | uint32 | int64 | uint64
  | uint8array | uint16array | bd_addr | hw_addr | ipv4
  | uuid_128 | aes_key_128 | sl_bt_uuid_64_t | sl_bt_uuid_16_t | byte_array
  deriving DecidableEq, Repr

/-- `validator_type` attribute values. -/
inductive ValidatorType where
  | enumGroup | defineGroup
  deriving DecidableEq, Repr

/-- `ApiParameter`: name, format, resolved datatype (name and, for
`byte_array`, its length), optional validator `(validator_id,
validator_type)`. -/
structure ApiParam where
  name : String
  format : ParamFormat
  datatypeName : String
  datatypeLength : Nat
  validator : Option (String × ValidatorType)
  deriving DecidableEq, Repr

/-- `ApiEnum` / `ApiDefine`: a group of named scalar values, kept in
insertion order. -/
structure EnumGroup where
  name : String
  members : List (String × Int)
  deriving DecidableEq, Repr

/-- Dict lookup of a group member by name (`group[name].value`). -/
def EnumGroup.valueOf (g : EnumGroup) (nm : String) : Option Int :=
  ((g.members.filter (fun m => m.1 == nm)).getLast?).map (fun m => m.2)

/-- Dict lookup of a group member by value (`group[value].name`). -/
def EnumGroup.nameOf (g : EnumGroup) (v : Int) : Option String :=
  ((g.members.filter (fun m => m.2 == v)).getLast?).map (fun m => m.1)

/-- Dict lookup of a group by its name (`apiclass.enums[group_name]`). -/
def findGroup (gs : List EnumGroup) (nm : String) : Option EnumGroup :=
  (gs.filter (fun g => g.name == nm)).getLast?

/-- `ApiCommand`. -/
structure ApiCommandM where
  name : String
  index : Nat
  params : List ApiParam
  returns : List ApiParam
  no_return : Bool
  deriving DecidableEq, Repr

/-- `ApiEvent`. -/
structure ApiEventM where
  name : String
  index : Nat
  params : List ApiParam
  deriving DecidableEq, Repr

/-- `ApiClass`. -/
structure ApiClassM where
  name : String
  index : Nat
  enums : List EnumGroup
  defines : List EnumGroup
  commands : List ApiCommandM
  events : List ApiEventM
  deriving DecidableEq, Repr

/-- `ParsedApi`. -/
structure ApiM where
  device_id : Nat
  device_name : String
  classes : List ApiClassM
  deriving DecidableEq, Repr

def findApi (apis : List ApiM) (d : Nat) : Option ApiM :=
  ((apis.filter (fun a => a.device_id == d)).getLast?)

def ApiM.classByIndex (api : ApiM) (i : Nat) : Option ApiClassM :=
  ((api.classes.filter (fun c => c.index == i)).getLast?)

def ApiM.classByName (api : ApiM) (nm : String) : Option ApiClassM :=
  ((api.classes.filter (fun c => c.name == nm)).getLast?)

def ApiClassM.commandByIndex (cls : ApiClassM) (i : Nat) : Option ApiCommandM :=
  ((cls.commands.filter (fun c => c.index == i)).getLast?)

def ApiClassM.commandByName (cls : ApiClassM) (nm : String) : Option ApiCommandM :=
  ((cls.commands.filter (fun c => c.name == nm)).getLast?)

def ApiClassM.eventByIndex (cls : ApiClassM) (i : Nat) : Option ApiEventM :=
  ((cls.events.filter (fun e => e.index == i)).getLast?)

/-! ## Serialization (`serdeser.py`, `Serializer`) -/

def MSG_COMMAND : Nat := 0
def MSG_EVENT : Nat := 1
def HEADER_LENGTH : Nat := 4

/-- `make_header`: the four header bytes; `struct.pack("<4B", ...)` raises
`struct.error` when a value does not fit a byte. -/
def make_header (msg_type device_id class_id command_id payload_len : Nat) :
    Except PyErr (List Nat) :=
  let b0 := (msg_type <<< 7) ||| (device_id <<< 3) ||| (payload_len >>> 8)
  let b1 := payload_len &&& 0xff
  if b0 < 256 ∧ b1 < 256 ∧ class_id < 256 ∧ command_id < 256 then
    .ok [b0, b1, class_id, command_id]
  else .error .structError

/-- `Deserializer.parseHeader` on a four-byte header:
`(msg_type, device_id, payload_len, class_id, command_id)`. -/
def parseHeader (header : List Nat) : Nat × Nat × Nat × Nat × Nat :=
  ( (header.getD 0 0 &&& 0x80) >>> 7,
    (header.getD 0 0 &&& 0x78) >>> 3,
    ((header.getD 0 0 &&& 0x7) <<< 8) ||| header.getD 1 0,
    header.getD 2 0,
    header.getD 3 0 )

/-- `to_bytes`: `bytes` pass through, `str` is encoded latin-1 (failing on
code points above 255); other values have no `encode` attribute. -/
def to_bytes (v : PyValue) : Except PyErr (List Nat) :=
  match v with
  | .bytes bs => .ok bs
  | .str s =>
    if s.data.all (fun c => c.toNat < 256) then .ok (s.data.map Char.toNat)
    else .error .valueError
  | _ => .error .attributeError

/-- `Serializer._convertEnumDefine`.  When the parameter has no validator
the argument goes straight to `toInt`.  When a validator is present the
source next evaluates `isinstance(val, basestring)`; `basestring` does not
exist in the Python 3 runtime the package targets, so the name lookup
raises `NameError` before any enum or define handling can run. -/
def Serializer.convertEnumDefine (p : ApiParam) (v : PyValue)
    (_enums _defines : List EnumGroup) : Except PyErr Int :=
  match p.validator with
  | Option.none => toInt v
  | some _ => .error .nameError

/-- `struct.pack` of one `"Ns"` field: pad with zero bytes or truncate to
exactly `n` bytes. -/
def padTrunc (n : Nat) (bs : List Nat) : List Nat :=
  (bs ++ List.replicate (n - bs.length) 0).take n

/-- One entry of the `packers` table of `Serializer._parseParameters`,
fused with the `struct.pack` of the field it emits: the wire bytes of a
single parameter. -/
def packParam (p : ApiParam) (v : PyValue) (enums defines : List EnumGroup) :
    Except PyErr (List Nat) :=
  match p.format with
  | .int8 => do packSigned 1 (← Serializer.convertEnumDefine p v enums defines)
  | .uint8 => do packUnsigned 1 (← Serializer.convertEnumDefine p v enums defines)
  | .int16 => do packSigned 2 (← Serializer.convertEnumDefine p v enums defines)
  | .uint16 => do packUnsigned 2 (← Serializer.convertEnumDefine p v enums defines)
  | .int32 => do packSigned 4 (← Serializer.convertEnumDefine p v enums defines)
  | .uint32 => do packUnsigned 4 (← Serializer.convertEnumDefine p v enums defines)
  | .int64 => do packSigned 8 (← Serializer.convertEnumDefine p v enums defines)
  | .uint64 => do packUnsigned 8 (← Serializer.convertEnumDefine p v enums defines)
  | .uint8array => do
    let bs ← to_bytes v
    if bs.length < 256 then .ok (bs.length :: bs) else .error .structError
  | .uint16array => do
    let bs ← to_bytes v
    if bs.length < 65536 then .ok (leBytes 2 bs.length ++ bs) else .error .structError
  | .bd_addr => do
    let bs ← to_bytes v
    let hx ← unhexlify ((bs.filter (fun b => b ≠ 58)).map Char.ofNat)
    .ok (padTrunc 6 hx.reverse)
  | .hw_addr => do
    let bs ← to_bytes v
    let hx ← unhexlify ((bs.filter (fun b => b ≠ 58)).map Char.ofNat)
    .ok (padTrunc 6 hx)
  | .ipv4 =>
    match v with
    | .str s => do
      let ns ← (pySplit '.' s.data).mapM (fun ch => pyIntOfChars 10 (pyStrip ch))
      let bytes ← ns.mapM (fun n =>
        if 0 ≤ n ∧ n < 256 then (.ok n.toNat : Except PyErr Nat) else .error .structError)
      .ok (padTrunc 4 bytes)
    | _ => .error .typeError
  | .uuid_128 => do .ok (padTrunc 16 (← to_bytes v))
  | .aes_key_128 => do .ok (padTrunc 16 (← to_bytes v))
  | .sl_bt_uuid_64_t => do .ok (padTrunc 8 (← to_bytes v))
  | .sl_bt_uuid_16_t => do .ok (padTrunc 2 (← to_bytes v))
  | .byte_array => do .ok (padTrunc p.datatypeLength (← to_bytes v))

/-- The list comprehension at the heart of `Serializer._parseParameters`
followed by `struct.pack` of the accumulated format: the concatenated wire
bytes of all parameters. -/
def packAll (params : List ApiParam) (args : List PyValue)
    (enums defines : List EnumGroup) : Except PyErr (List Nat) :=
  match params, args with
  | [], [] => .ok []
  | p :: ps, v :: vs => do
    let field ← packParam p v enums defines
    let rest ← packAll ps vs enums defines
    .ok (field ++ rest)
  | _, _ => .error .typeError

/-- `Serializer._parseParameters`: arity mismatch raises `TypeError`. -/
def parseParameters (args : List PyValue) (params : List ApiParam)
    (enums defines : List EnumGroup) : Except PyErr (List Nat) :=
  if args.length ≠ params.length then .error .typeError
  else packAll params args enums defines

/-- `Serializer.command` for a numeric device id (the device-name string
resolution through `self.device_ids` adds nothing the claims touch):
resolve the api, class and command (plain dict `KeyError` on a miss), pack
the parameters, and prepend the header. -/
def Serializer.command (apis : List ApiM) (device_id : Nat)
    (class_name command_name : String) (args : List PyValue) :
    Except PyErr (List Nat) :=
  match findApi apis device_id with
  | Option.none => .error .keyError
  | some api =>
    match api.classByName class_name with
    | Option.none => .error .keyError
    | some cls =>
      match cls.commandByName command_name with
      | Option.none => .error .keyError
      | some cmd => do
        let payload ← parseParameters args cmd.params cls.enums cls.defines
        let header ← make_header MSG_COMMAND device_id cls.index cmd.index payload.length
        .ok (header ++ payload)

/-! ## Deserialization (`serdeser.py`, `Deserializer`) -/

/-- `Deserializer._convertEnumDefine`.  No validator: the value passes
through.  Enum validator: `enums[validator_id][val].name` over the dict
passed in by `parse` (missing group or missing key raises `KeyError`).
Define validator: the source reads `apiparam.defines`, an attribute
`ApiParameter` never defines (the function's own `defines` argument goes
unused), so the branch raises `AttributeError` before looking anything
up. -/
def Deserializer.convertEnumDefine (p : ApiParam) (v : PyValue)
    (enums _defines : List EnumGroup) : Except PyErr PyValue :=
  match p.validator with
  | Option.none => .ok v
  | some (vid, .enumGroup) =>
    match findGroup enums vid with
    | Option.none => .error .keyError
    | some g =>
      match v with
      | .int i =>
        match g.nameOf i with
        | some nm => .ok (.str nm)
        | Option.none => .error .keyError
      | .str s =>
        if (g.members.filter (fun m => m.1 == s)).getLast?.isSome then .ok (.str s)
        else .error .keyError
      | _ => .error .keyError
  | some (_, .defineGroup) => .error .attributeError

/-- Size in bytes of one field of the `unpackers` table
(`struct.calcsize` of the format fragment the unpacker returns).  Array
formats read their length out of the first one or two bytes of the field
(`payload[pos:pos+2]`); a `uint16array` whose two-byte prefix is cut off
makes `struct.unpack("<H", x[:2])` raise `struct.error`. -/
def unpackerSize (p : ApiParam) (firstTwo : List Nat) : Except PyErr Nat :=
  match p.format with
  | .int8 | .uint8 => .ok 1
  | .int16 | .uint16 => .ok 2
  | .int32 | .uint32 => .ok 4
  | .int64 | .uint64 => .ok 8
  | .uint8array =>
    match firstTwo.head? with
    | some b => .ok (1 + b)
    | Option.none => .error .structError
  | .uint16array =>
    if firstTwo.length < 2 then .error .structError
    else .ok (2 + leValue (firstTwo.take 2))
  | .bd_addr | .hw_addr => .ok 6
  | .ipv4 => .ok 4
  | .uuid_128 | .aes_key_128 => .ok 16
  | .sl_bt_uuid_64_t => .ok 8
  | .sl_bt_uuid_16_t => .ok 2
  | .byte_array => .ok p.datatypeLength

/-- The format-scanning loop of `Deserializer.parse`: walk the parameters
accumulating field sizes until the payload is exhausted; returns the sized
fields, the final offset and the parameters left undecoded. -/
def scanParams (params : List ApiParam) (payload : List Nat) (pos : Nat) :
    Except PyErr (List (ApiParam × Nat) × Nat × List ApiParam) :=
  match params with
  | [] => .ok ([], pos, [])
  | p :: ps =>
    if payload.length ≤ pos then .ok ([], pos, p :: ps)
    else do
      let sz ← unpackerSize p ((payload.drop pos).take 2)
      let (fields, fin, missing) ← scanParams ps payload (pos + sz)
      .ok ((p, sz) :: fields, fin, missing)

/-- Decode the bytes of a single field per its format code. -/
def unpackField (p : ApiParam) (bs : List Nat) : PyValue :=
  match p.format with
  | .int8 => .int (unpackSigned 1 bs)
  | .uint8 => .int (unpackUnsigned bs)
  | .int16 => .int (unpackSigned 2 bs)
  | .uint16 => .int (unpackUnsigned bs)
  | .int32 => .int (unpackSigned 4 bs)
  | .uint32 => .int (unpackUnsigned bs)
  | .int64 => .int (unpackSigned 8 bs)
  | .uint64 => .int (unpackUnsigned bs)
  | .uint8array => .bytes (bs.drop 1)
  | .uint16array => .bytes (bs.drop 2)
  | _ => .bytes bs

def unpackFields : List (ApiParam × Nat) → List Nat → List PyValue
  | [], _ => []
  | (p, sz) :: rest, bs => unpackField p (bs.take sz) :: unpackFields rest (bs.drop sz)

def sizesSum (fields : List (ApiParam × Nat)) : Nat := (fields.map (fun f => f.2)).sum

/-- `struct.unpack("<" + pack_format, payload)`: the buffer length must
equal the format size exactly, else `struct.error`. -/
def structUnpack (fields : List (ApiParam × Nat)) (payload : List Nat) :
    Except PyErr (List PyValue) :=
  if payload.length = sizesSum fields then .ok (unpackFields fields payload)
  else .error .structError

/-- The `converters` table of `Deserializer.parse`: colon-joined reversed
hex for `bd_addr`, forward hex for `hw_addr`, dotted decimal for `ipv4`,
identity elsewhere.  On the `None` fill-in of a missing parameter the three
text renderings raise `TypeError` (e.g. `reversed(None)`). -/
def convertValue (fmt : ParamFormat) (v : PyValue) : Except PyErr PyValue :=
  match fmt, v with
  | .bd_addr, .bytes bs => .ok (.str (String.mk (joinSep ':' (bs.reverse.map hexPair))))
  | .bd_addr, _ => .error .typeError
  | .hw_addr, .bytes bs => .ok (.str (String.mk (joinSep ':' (bs.map hexPair))))
  | .hw_addr, _ => .error .typeError
  | .ipv4, .bytes bs => .ok (.str (String.mk (joinSep '.' (bs.map decChars))))
  | .ipv4, _ => .error .typeError
  | _, v => .ok v

/-- The warning annotations `Deserializer.parse` can log. -/
inductive Warn where
  | missingParams (names : List String)
  | extraBytes (n : Nat)
  deriving DecidableEq, Repr

/-- The payload-decoding pipeline of `Deserializer.parse` (everything after
the command/event resolution): scan the formats until the payload ends
(warning when parameters are left over), truncate and warn when bytes are
left over, unpack, pad the value list with `None` to the parameter count,
apply the converters and, when `enumdefines` is set, the validator
conversion. -/
def parsePayload (apiparams : List ApiParam) (payload : List Nat)
    (enums defines : List EnumGroup) (enumdefines : Bool) :
    Except PyErr (List PyValue × List Warn) := do
  let (fields, pos, missing) ← scanParams apiparams payload 0
  let w1 : List Warn :=
    if missing.isEmpty then [] else [.missingParams (missing.map (fun p => p.name))]
  let w2 : List Warn :=
    if pos < payload.length then [.extraBytes (payload.length - pos)] else []
  let payload2 := if pos < payload.length then payload.take pos else payload
  let vals ← structUnpack fields payload2
  let filled := vals ++ List.replicate (apiparams.length - vals.length) PyValue.none
  let converted ← (filled.zip apiparams).mapM (fun x => convertValue x.2.format x.1)
  let final ←
    if enumdefines then
      (converted.zip apiparams).mapM
        (fun x => Deserializer.convertEnumDefine x.2 x.1 enums defines)
    else .ok converted
  .ok (final, w1 ++ w2)

/-- The identity of a resolved command or event node, with the parent
links of the source's object graph (`api_class.api.device_name` etc.)
flattened into the record. -/
structure ApiNodeM where
  deviceName : String
  className : String
  msgName : String
  returns : List ApiParam
  no_return : Bool
  deriving DecidableEq, Repr

/-- `Deserializer.parse`: decode the header, resolve the api by device id
(`DeserializerApiMissingError` on a miss), resolve the class and command
through plain dict lookups when `msg_type = 0` (an unwrapped `KeyError` on
a miss), or the class and event inside one `try/except KeyError` that
rethrows `DeserializerEventMissingError` when `msg_type = 1`; then decode
the payload. -/
def Deserializer.parse (apis : List ApiM) (header payload : List Nat)
    (fromHost : Bool) (enumdefines : Bool) :
    Except PyErr (ApiNodeM × (Nat × Nat × Nat × Nat × Nat) × List PyValue × List Warn) :=
  let hf := parseHeader header
  let (cmdevt, device_id, _plen, classIndex, cmdEvtIndex) := hf
  match findApi apis device_id with
  | Option.none => .error (.apiMissing device_id)
  | some api =>
    if cmdevt = MSG_COMMAND then
      match api.classByIndex classIndex with
      | Option.none => .error .keyError
      | some cls =>
        match cls.commandByIndex cmdEvtIndex with
        | Option.none => .error .keyError
        | some cmd => do
          let apiparams := if fromHost then cmd.params else cmd.returns
          let (vals, warns) ← parsePayload apiparams payload cls.enums cls.defines enumdefines
          .ok (⟨api.device_name, cls.name, cmd.name, cmd.returns, cmd.no_return⟩, hf, vals, warns)
    else
      match api.classByIndex classIndex with
      | Option.none => .error (.eventMissing classIndex cmdEvtIndex)
      | some cls =>
        match cls.eventByIndex cmdEvtIndex with
        | Option.none => .error (.eventMissing classIndex cmdEvtIndex)
        | some evt => do
          let (vals, warns) ← parsePayload evt.params payload cls.enums cls.defines enumdefines
          .ok (⟨api.device_name, cls.name, evt.name, [], false⟩, hf, vals, warns)

/-! ## Response handling and command dispatch (`bglib.py`) -/

/-- A decoded response: the resolved command node and the decoded return
values (`BGResponse`). -/
structure BGResponseM where
  node : ApiNodeM
  values : List PyValue
  deriving DecidableEq, Repr

/-- `BGMsg.__new__`: value attributes are assigned in order,
`api_vals[i].name := values[i]` for `i < len(values)`; more values than
return parameters indexes past `api_vals` and raises `IndexError`. -/
def mkBGResponse (node : ApiNodeM) (vals : List PyValue) :
    Except PyErr BGResponseM :=
  if vals.length ≤ node.returns.length then .ok ⟨node, vals⟩
  else .error .indexError

/-- `getattr(response, name)` over the attributes assigned by
`BGMsg.__new__`: the last assignment of a name wins; a never-assigned name
raises `AttributeError`. -/
def BGResponseM.getattr (r : BGResponseM) (nm : String) : Except PyErr PyValue :=
  match ((r.node.returns.zip r.values).filter (fun x => x.1.name == nm)).getLast? with
  | some x => .ok x.2
  | Option.none => .error .attributeError

/-- `BGResponse._errorcode_field`: the name of the first return parameter
whose datatype is named `errorcode`, if any. -/
def BGResponseM.errorcodeField (r : BGResponseM) : Option String :=
  (r.node.returns.find? (fun p => p.datatypeName == "errorcode")).map (fun p => p.name)

/-- `BGResponse._errorcode`: the value of the errorcode attribute, or `0`
when the response declares no errorcode return parameter. -/
def BGResponseM.errorcode (r : BGResponseM) : Except PyErr PyValue :=
  match r.errorcodeField with
  | Option.none => .ok (.int 0)
  | some nm => r.getattr nm

/-- The error kinds of the command path (`bglib.py`). -/
inductive CmdErr where
  | commandFailed (errorcode : Int) (response : BGResponseM)
  | wrongResponse
  | pyError (e : PyErr)
  deriving DecidableEq, Repr

/-- The response-handling half of `BGApiConnHandler.send_command`, applied
to the `(api_node, vals)` pair taken off the response queue: build the
`BGResponse`, raise `CommandFailedError` when `_errorcode != 0` (the
`"{:#x}"` formatting inside `CommandFailedError.__init__` raises
`TypeError` for a non-`int` errorcode value), otherwise return the
response. -/
def send_command (node : ApiNodeM) (vals : List PyValue) :
    Except CmdErr BGResponseM :=
  match mkBGResponse node vals with
  | .error e => .error (.pyError e)
  | .ok r =>
    match r.errorcode with
    | .error e => .error (.pyError e)
    | .ok ec =>
      if pyNeZero ec then
        match ec with
        | .int e => .error (.commandFailed e r)
        | _ => .error (.pyError .typeError)
      else .ok r

/-- The response verification of the `apiCommand` closure built by
`BGLib._createApiCommand`, applied to the decoded `(api_node, vals)`
response the reader queued for this invocation: `send_command` first (which
may raise `CommandFailedError`), then, unless the command is `no_return`,
the `(device, class, command)` identity triple of the response is compared
with the outgoing command and a mismatch raises
`CommandError("Wrong response")`. -/
def apiCommand (apicmd : ApiNodeM) (respNode : ApiNodeM)
    (respVals : List PyValue) : Except CmdErr (Option BGResponseM) :=
  if apicmd.no_return then .ok Option.none
  else
    match send_command respNode respVals with
    | .error e => .error e
    | .ok r =>
      if (r.node.deviceName, r.node.className, r.node.msgName)
          ≠ (apicmd.deviceName, apicmd.className, apicmd.msgName) then
        .error .wrongResponse
      else .ok (some r)

/-! ## The reliable framer (`robustconnector.py`) -/

def PREAMBLE_BYTE : Nat := 0x5A
def MAX_PAYLOAD_LENGTH : Nat := 2047
def CRC_PRESENT_FLAG : Nat := 0b00010000
def PAYLOAD_LENGTH_MASK : Nat := 0b11100000

/-- The 16-entry nibble table of `crc4`. -/
def crc4Table : List Nat :=
  [0x0, 0x7, 0xe, 0x9, 0x5, 0x2, 0xb, 0xc, 0xa, 0xd, 0x4, 0x3, 0xf, 0x8, 0x1, 0x6]

/-- `crc4`: CRC-4 (poly x^4+x+1) over the first `nibbles` nibbles of
`data`, seeded with `0xA`, the CRC of the preamble byte. -/
def crc4 (data : List Nat) (nibbles : Nat) : Nat :=
  (List.range nibbles).foldl
    (fun crc i =>
      let shift := if i % 2 = 0 then 4 else 0
      let nibble := ((data.getD (i / 2) 0) >>> shift) &&& 0x0F
      crc4Table.getD (crc ^^^ nibble) 0)
    0xa

/-- One shift round of `crc8`. -/
def crc8Round (crc : Nat) : Nat :=
  (if crc &&& 0x8000 ≠ 0 then crc ^^^ (0x1070 <<< 3) else crc) <<< 1

/-- `crc8`: CRC-8 (poly x^8+x^2+x+1) over `data`, msb first. -/
def crc8 (data : List Nat) : Nat :=
  ((data.foldl (fun crc byte => crc8Round^[8] (crc ^^^ (byte <<< 8))) 0) >>> 8) &&& 0xFF

/-- `pack`: prepend the 3-byte header (preamble, low 8 length bits, high
3 length bits or-ed with the CRC flag and the header CRC-4) and append the
optional payload CRC-8; payloads above 2047 bytes raise
`ConnectorException`. -/
def pack (data : List Nat) (crc : Bool) : Except Unit (List Nat) :=
  if MAX_PAYLOAD_LENGTH < data.length then .error ()
  else
    let b1 := data.length &&& 0xFF
    let b2p := ((data.length >>> 3) &&& PAYLOAD_LENGTH_MASK) |||
      (if crc then CRC_PRESENT_FLAG else 0)
    let b2 := b2p ||| crc4 [b1, b2p] 3
    .ok ([PREAMBLE_BYTE, b1, b2] ++ data ++ (if crc then [crc8 data] else []))

/-- The unpacking state machine of `RobustConnector._run` on a finite input
stream: `header` is the partial header buffer carried across iterations
(always shorter than 3 bytes on entry from the loop) and `stream` the bytes
not yet read; a blocking `_read` that runs out of input ends the run.
Returns the payloads delivered to the read queue, in order. -/
def framerRun (header stream : List Nat) : List (List Nat) :=
  if 3 ≤ header.length then []
  else
    let need := 3 - header.length
    if _hlen : stream.length < need then []
    else
      let header2 := header ++ stream.take need
      let rest := stream.drop need
      match header2.findIdx? (fun b => b = PREAMBLE_BYTE) with
      | Option.none => framerRun [] rest
      | some 0 =>
        if crc4 (header2.drop 1) 4 ≠ 0 then framerRun (header2.drop 1) rest
        else
          let payloadSize := header2.getD 1 0 ||| ((header2.getD 2 0 &&& PAYLOAD_LENGTH_MASK) <<< 3)
          let crcReq := header2.getD 2 0 &&& CRC_PRESENT_FLAG ≠ 0
          if rest.length < payloadSize then []
          else
            let payload := rest.take payloadSize
            let rest2 := rest.drop payloadSize
            if crcReq then
              if rest2.length < 1 then []
              else if rest2.getD 0 0 ≠ crc8 payload then framerRun [] (rest2.drop 1)
              else payload :: framerRun [] (rest2.drop 1)
            else payload :: framerRun [] rest2
      | some (k + 1) => framerRun (header2.drop (k + 1)) rest
  termination_by stream.length
  decreasing_by
  all_goals simp_wf
  all_goals omega

/-! ## Spec-modelled intended validator encoding -/

/-- Modelled from the spec: the intended behaviour of
`Serializer._convertEnumDefine`, which the source cannot execute because
its `isinstance(val, basestring)` test names the undefined `basestring`
(and its `enums[val]` / `defines[v]` lookups index the group dict by the
member symbol).  Per the spec: a non-numeric textual symbol of a
validator-carrying parameter is looked up in the named enum group of the
command's class (yielding the member's scalar value), or, for a define
validator, or-ed together from the values of the `|`-separated symbols;
numeric literals (leading digit, covering the `0x`/`0b` forms) and
non-text values bypass the validator and go through `toInt`. -/
def convertEnumDefineSpec (p : ApiParam) (v : PyValue)
    (enums defines : List EnumGroup) : Except PyErr Int :=
  match p.validator with
  | Option.none => toInt v
  | some (vid, vt) =>
    match v with
    | .str s =>
      match s.data with
      | [] => toInt v
      | c :: _ =>
        if 48 ≤ c.toNat ∧ c.toNat ≤ 57 then toInt v
        else
          match vt with
          | .enumGroup =>
            match findGroup enums vid with
            | some g =>
              match g.valueOf s with
              | some val => .ok val
              | Option.none => .error .keyError
            | Option.none => .error .keyError
          | .defineGroup =>
            match findGroup defines vid with
            | some g =>
              (pySplit '|' s.data).foldlM
                (fun acc ch =>
                  match g.valueOf (String.mk ch) with
                  | some val => (.ok (Int.lor acc val) : Except PyErr Int)
                  | Option.none => .error .keyError) 0
            | Option.none => .error .keyError
    | _ => toInt v

/-! ## Helper definitions for the statements -/

/-- A validator-free parameter of the given format (and `byte_array`
length). -/
def plainParam (fmt : ParamFormat) (dlen : Nat) : ApiParam :=
  ⟨"p", fmt, "", dlen, Option.none⟩

/-- Canonical textual rendering of an address: colon-separated lower-case
hex pairs, exactly as the deserializer emits it. -/
def addrText (ts : List Nat) : String := String.mk (joinSep ':' (ts.map hexPair))

/-- Canonical dotted-decimal rendering of four bytes, exactly as the
deserializer emits it. -/
def ipv4Text (ts : List Nat) : String := String.mk (joinSep '.' (ts.map decChars))

/-- The value domain of each parameter format: range-bounded integers for
the scalar formats, bounded byte strings for the length-prefixed arrays,
exact-length byte strings for the fixed-length opaque formats and for
`byte_array` (whose length `dlen` comes from the datatype), and canonical
textual renderings for the three address formats. -/
def inDomain (fmt : ParamFormat) (dlen : Nat) (v : PyValue) : Prop :=
  match fmt with
  | .int8 => ∃ i, v = .int i ∧ -(2 : Int) ^ 7 ≤ i ∧ i < (2 : Int) ^ 7
  | .uint8 => ∃ i, v = .int i ∧ 0 ≤ i ∧ i < (2 : Int) ^ 8
  | .int16 => ∃ i, v = .int i ∧ -(2 : Int) ^ 15 ≤ i ∧ i < (2 : Int) ^ 15
  | .uint16 => ∃ i, v = .int i ∧ 0 ≤ i ∧ i < (2 : Int) ^ 16
  | .int32 => ∃ i, v = .int i ∧ -(2 : Int) ^ 31 ≤ i ∧ i < (2 : Int) ^ 31
  | .uint32 => ∃ i, v = .int i ∧ 0 ≤ i ∧ i < (2 : Int) ^ 32
  | .int64 => ∃ i, v = .int i ∧ -(2 : Int) ^ 63 ≤ i ∧ i < (2 : Int) ^ 63
  | .uint64 => ∃ i, v = .int i ∧ 0 ≤ i ∧ i < (2 : Int) ^ 64
  | .uint8array => ∃ bs, v = .bytes bs ∧ bs.length ≤ 255
  | .uint16array => ∃ bs, v = .bytes bs ∧ bs.length ≤ 65535
  | .bd_addr => ∃ ts, v = .str (addrText ts) ∧ ts.length = 6 ∧ ∀ b ∈ ts, b < 256
  | .hw_addr => ∃ ts, v = .str (addrText ts) ∧ ts.length = 6 ∧ ∀ b ∈ ts, b < 256
  | .ipv4 => ∃ ts, v = .str (ipv4Text ts) ∧ ts.length = 4 ∧ ∀ b ∈ ts, b < 256
  | .uuid_128 => ∃ bs, v = .bytes bs ∧ bs.length = 16
  | .aes_key_128 => ∃ bs, v = .bytes bs ∧ bs.length = 16
  | .sl_bt_uuid_64_t => ∃ bs, v = .bytes bs ∧ bs.length = 8
  | .sl_bt_uuid_16_t => ∃ bs, v = .bytes bs ∧ bs.length = 2
  | .byte_array => ∃ bs, v = .bytes bs ∧ bs.length = dlen

/-! ## Concrete fixtures (a small device API used by concrete instances) -/

def pUint16 : ApiParam := ⟨"value", .uint16, "", 0, Option.none⟩

def pErrorcode : ApiParam := ⟨"result", .uint16, "errorcode", 0, Option.none⟩

def pConnMode : ApiParam := ⟨"mode", .uint8, "", 0, some ("conn_mode", .enumGroup)⟩

def pFlags : ApiParam := ⟨"flags", .uint8, "", 0, some ("flag_bits", .defineGroup)⟩

def gConnMode : EnumGroup := ⟨"conn_mode", [("off", 0), ("on", 1), ("slow", 2)]⟩

def gFlags : EnumGroup := ⟨"flag_bits", [("a", 1), ("b", 2)]⟩

def demoCmd : ApiCommandM := ⟨"hello", 7, [], [pErrorcode], false⟩

def demoEvt : ApiEventM := ⟨"booted", 0, [pUint16]⟩

def demoCls : ApiClassM := ⟨"system", 1, [gConnMode], [gFlags], [demoCmd], [demoEvt]⟩

def demoApi : ApiM := ⟨0, "bt", [demoCls]⟩

def nodeHello : ApiNodeM := ⟨"bt", "system", "hello", [pErrorcode], false⟩

def nodeOther : ApiNodeM := ⟨"bt", "system", "other", [pErrorcode], false⟩

/-! ## General lemmas about the embedded definitions -/

@[simp] theorem ok_bind {α β ε : Type} (a : α) (f : α → Except ε β) :
    (Except.ok a : Except ε α) >>= f = f a := rfl

@[simp] theorem error_bind {α β ε : Type} (e : ε) (f : α → Except ε β) :
    (Except.error e : Except ε α) >>= f = Except.error e := rfl
theorem leValue_leBytes (w n : Nat) (h : n < 256 ^ w) : leValue (leBytes w n) = n := by
  induction w generalizing n with
  | zero => simp [leBytes, leValue]; omega
  | succ w ih =>
    have hdiv : n / 256 < 256 ^ w := by
      rw [Nat.div_lt_iff_lt_mul (by norm_num)]
      calc n < 256 ^ (w + 1) := h
        _ = 256 ^ w * 256 := by ring
    simp only [leBytes, leValue, ih (n / 256) hdiv]
    omega

theorem leBytes_length (w n : Nat) : (leBytes w n).length = w := by
  induction w generalizing n with
  | zero => simp [leBytes]
  | succ w ih => simp [leBytes, ih]

theorem leBytes_lt (w n : Nat) : ∀ b ∈ leBytes w n, b < 256 := by
  induction w generalizing n with
  | zero => simp [leBytes]
  | succ w ih =>
    simp only [leBytes, List.mem_cons]
    rintro b (rfl | hb)
    · omega
    · exact ih _ _ hb

theorem unpack_pack_unsigned (w : Nat) (i : Int)
    (h0 : 0 ≤ i) (h1 : i < (2 : Int) ^ (8 * w)) :
    ∃ bs, packUnsigned w i = .ok bs ∧ unpackUnsigned bs = i := by
  refine ⟨leBytes w i.toNat, by simp [packUnsigned, h0, h1], ?_⟩
  have hlt : i.toNat < 256 ^ w := by
    have h256 : ((256 : Nat) ^ w : Int) = (2 : Int) ^ (8 * w) := by
      push_cast
      rw [show ((256 : Int) = 2 ^ 8) by norm_num, ← pow_mul]
    omega
  simp [unpackUnsigned, leValue_leBytes w i.toNat hlt]
  omega

theorem unpack_pack_signed (w : Nat) (i : Int) (hw : 1 ≤ w)
    (h0 : -(2 : Int) ^ (8 * w - 1) ≤ i) (h1 : i < (2 : Int) ^ (8 * w - 1)) :
    ∃ bs, packSigned w i = .ok bs ∧ unpackSigned w bs = i := by
  refine ⟨leBytes w (i.emod ((2 : Int) ^ (8 * w))).toNat, by simp [packSigned, h0, h1], ?_⟩
  have hhalf : (2 : Int) ^ (8 * w) = 2 ^ (8 * w - 1) * 2 := by
    rw [← pow_succ]
    congr 1
    omega
  have hpos : (0 : Int) < (2 : Int) ^ (8 * w) := by positivity
  have hemod : i.emod ((2 : Int) ^ (8 * w)) = if 0 ≤ i then i else i + (2 : Int) ^ (8 * w) := by
    split
    · exact Int.emod_eq_of_lt (by assumption) (by omega)
    · have hcongr : (i + (2 : Int) ^ (8 * w)) % ((2 : Int) ^ (8 * w)) = i % ((2 : Int) ^ (8 * w)) := by
        rw [show i + (2 : Int) ^ (8 * w) = i + (2 : Int) ^ (8 * w) * 1 by ring]
        exact Int.add_mul_emod_self_left i ((2 : Int) ^ (8 * w)) 1
      calc i.emod ((2 : Int) ^ (8 * w))
          = (i + (2 : Int) ^ (8 * w)).emod ((2 : Int) ^ (8 * w)) := hcongr.symm
        _ = i + (2 : Int) ^ (8 * w) := Int.emod_eq_of_lt (by omega) (by omega)
  have h256 : ((256 : Nat) ^ w : Int) = (2 : Int) ^ (8 * w) := by
    push_cast
    rw [show ((256 : Int) = 2 ^ 8) by norm_num, ← pow_mul]
  have hltNat : (i.emod ((2 : Int) ^ (8 * w))).toNat < 256 ^ w := by
    rw [hemod]
    split <;> omega
  have hval : (leValue (leBytes w (i.emod ((2 : Int) ^ (8 * w))).toNat) : Int)
      = i.emod ((2 : Int) ^ (8 * w)) := by
    rw [leValue_leBytes _ _ hltNat]
    rw [hemod]
    split <;> omega
  simp only [unpackSigned, hval]
  rcases le_or_lt 0 i with hp | hn
  · rw [hemod, if_pos hp, if_pos h1]
  · rw [hemod, if_neg (by omega), if_neg (by omega)]
    omega

/-! ## Text helpers (fragments of Python `str` / `binascii` behaviour) -/

theorem hexVal_hexChar (n : Nat) (h : n < 16) : hexVal (hexChar n) = some n := by
  interval_cases n <;> decide

theorem unhexlify_hexPair (bs : List Nat) (h : ∀ b ∈ bs, b < 256) :
    unhexlify (bs.flatMap hexPair) = .ok bs := by
  induction bs with
  | nil => simp [unhexlify]
  | cons b rest ih =>
    have hb : b < 256 := h b (by simp)
    have h1 : hexVal (hexChar (b / 16)) = some (b / 16) := hexVal_hexChar _ (by omega)
    have h2 : hexVal (hexChar (b % 16)) = some (b % 16) := hexVal_hexChar _ (by omega)
    have ihr := ih (fun x hx => h x (by simp [hx]))
    simp only [List.flatMap_cons, hexPair, List.cons_append, List.nil_append, unhexlify, h1, h2]
    rw [show List.append ([] : List Char) (List.map hexPair rest).flatten
        = rest.flatMap hexPair from rfl]
    rw [ihr, show 16 * (b / 16) + b % 16 = b by omega]

theorem pySplit_sepFree (sep : Char) (chunk : List Char) (h : sep ∉ chunk) :
    pySplit sep chunk = [chunk] := by
  induction chunk with
  | nil => rfl
  | cons c rest ih =>
    have hc : c ≠ sep := fun hcs => h (hcs ▸ List.mem_cons_self c rest)
    simp only [pySplit, if_neg hc, ih (fun hm => h (List.mem_cons_of_mem c hm))]

theorem pySplit_append (sep : Char) (chunk rest : List Char) (h : sep ∉ chunk) :
    pySplit sep (chunk ++ sep :: rest) = chunk :: pySplit sep rest := by
  induction chunk with
  | nil => simp [pySplit]
  | cons c cs ih =>
    have hc : c ≠ sep := fun hcs => h (hcs ▸ List.mem_cons_self c cs)
    simp only [List.cons_append, pySplit, if_neg hc, List.append_eq,
      ih (fun hm => h (List.mem_cons_of_mem c hm))]

theorem pySplit_joinSep (sep : Char) (chunks : List (List Char)) (hne : chunks ≠ [])
    (h : ∀ c ∈ chunks, sep ∉ c) :
    pySplit sep (joinSep sep chunks) = chunks := by
  induction chunks with
  | nil => exact absurd rfl hne
  | cons c cs ih =>
    cases cs with
    | nil => exact pySplit_sepFree sep c (h c (by simp))
    | cons c2 cs2 =>
      rw [show joinSep sep (c :: c2 :: cs2) = c ++ sep :: joinSep sep (c2 :: cs2) from rfl]
      rw [pySplit_append sep c _ (h c (by simp))]
      rw [ih (by simp) (fun x hx => h x (List.mem_cons_of_mem c hx))]

theorem parseDigits_append (base : Nat) (xs ys : List Char) (acc : Nat) :
    parseDigits base (xs ++ ys) acc =
      match parseDigits base xs acc with
      | some a => parseDigits base ys a
      | none => none := by
  induction xs generalizing acc with
  | nil => simp [parseDigits]
  | cons c rest ih =>
    simp only [List.cons_append, parseDigits, List.append_eq]
    match hexVal c with
    | some d =>
      by_cases hd : d < base
      · simp only [if_pos hd, ih]
      · simp only [if_neg hd]
    | none => rfl

theorem hexChar_lt_ten (d : Nat) (h : d < 10) : hexVal (hexChar d) = some d ∧ d < 10 :=
  ⟨hexVal_hexChar d (by omega), h⟩

theorem parseDigits_decChars (n : Nat) :
    ∀ acc, parseDigits 10 (decChars n) acc = some (acc * 10 ^ (decChars n).length + n) := by
  induction n using Nat.strong_induction_on with
  | _ n ih =>
    intro acc
    by_cases h : n < 10
    · rw [decChars, dif_pos h]
      simp only [parseDigits, hexVal_hexChar n (by omega), if_pos h, List.length_cons,
        List.length_nil]
      norm_num
      ring
    · rw [decChars, dif_neg h]
      have hdiv : n / 10 < n := Nat.div_lt_self (by omega) (by omega)
      rw [parseDigits_append, ih (n / 10) hdiv acc]
      simp only [parseDigits, hexVal_hexChar (n % 10) (by omega), if_pos (by omega : n % 10 < 10),
        List.length_append, List.length_cons, List.length_nil]
      congr 1
      have : 10 ^ ((decChars (n / 10)).length + (0 + 1)) = 10 ^ (decChars (n / 10)).length * 10 := by
        rw [Nat.zero_add, pow_succ]
      rw [this]
      have hmod := Nat.div_add_mod n 10
      ring_nf
      omega

theorem decChars_digit (n : Nat) : ∀ c ∈ decChars n, ∃ d, d < 10 ∧ c = hexChar d := by
  induction n using Nat.strong_induction_on with
  | _ n ih =>
    intro c hc
    by_cases h : n < 10
    · rw [decChars, dif_pos h] at hc
      simp only [List.mem_singleton] at hc
      exact ⟨n, h, hc⟩
    · rw [decChars, dif_neg h] at hc
      rcases List.mem_append.mp hc with hm | hm
      · exact ih (n / 10) (Nat.div_lt_self (by omega) (by omega)) c hm
      · simp only [List.mem_singleton] at hm
        exact ⟨n % 10, by omega, hm⟩

theorem hexChar_ne_dot (d : Nat) (h : d < 16) : hexChar d ≠ '.' := by
  interval_cases d <;> decide

theorem hexChar_ne_colon (d : Nat) (h : d < 16) : hexChar d ≠ ':' := by
  interval_cases d <;> decide

set_option maxRecDepth 2000 in
theorem headerByte0_bits :
    ∀ m < 2, ∀ d < 16, ∀ hi < 8,
      (((m <<< 7) ||| (d <<< 3) ||| hi) &&& 0x80) >>> 7 = m ∧
      (((m <<< 7) ||| (d <<< 3) ||| hi) &&& 0x78) >>> 3 = d ∧
      (((m <<< 7) ||| (d <<< 3) ||| hi) &&& 0x7) = hi ∧
      ((m <<< 7) ||| (d <<< 3) ||| hi) < 256 := by decide

theorem and_mod256 (p : Nat) : p &&& 0xFF = p % 256 := Nat.and_pow_two_sub_one_eq_mod p 8

theorem payload_split_bits (p : Nat) (hp : p < 2048) :
    ((p >>> 8) <<< 8) ||| (p &&& 0xFF) = p ∧ p &&& 0xFF < 256 ∧ p >>> 8 < 8 := by
  have h1 : p >>> 8 = p / 256 := by rw [Nat.shiftRight_eq_div_pow]
  have h2 : (p / 256) <<< 8 = 2 ^ 8 * (p / 256) := by rw [Nat.shiftLeft_eq]; ring
  have h3 : p % 256 < 2 ^ 8 := Nat.mod_lt _ (by norm_num)
  refine ⟨?_, ?_, ?_⟩
  · rw [h1, h2, and_mod256, ← Nat.mul_add_lt_is_or h3 (p / 256)]
    omega
  · rw [and_mod256]; omega
  · rw [h1]; omega

theorem shiftRight_or_distrib (x y k : Nat) : (x ||| y) >>> k = (x >>> k) ||| (y >>> k) := by
  apply Nat.eq_of_testBit_eq
  intro i
  simp [Nat.testBit_shiftRight, Nat.testBit_or]

theorem and_or_distrib_r (x y z : Nat) : (x ||| y) &&& z = (x &&& z) ||| (y &&& z) := by
  apply Nat.eq_of_testBit_eq
  intro i
  cases hx : x.testBit i <;> cases hy : y.testBit i <;> cases hz : z.testBit i <;>
    simp [Nat.testBit_and, Nat.testBit_or, hx, hy, hz]

theorem crc4Table_getD_lt (x : Nat) : crc4Table.getD x 0 < 16 := by
  by_cases h : x < 16
  · interval_cases x <;> decide
  · rw [List.getD_eq_default]
    · norm_num
    · simp [crc4Table]
      omega

theorem crc4_zero (data : List Nat) : crc4 data 0 = 0xa := rfl

theorem crc4_succ (data : List Nat) (n : Nat) :
    crc4 data (n + 1) = crc4Table.getD ((crc4 data n) ^^^
      (((data.getD (n / 2) 0) >>> (if n % 2 = 0 then 4 else 0)) &&& 0x0F)) 0 := by
  simp [crc4, List.range_succ]

theorem crc4_lt (data : List Nat) (n : Nat) : crc4 data n < 16 := by
  cases n with
  | zero => norm_num [crc4_zero]
  | succ m => rw [crc4_succ]; exact crc4Table_getD_lt _

theorem small_and_15 : ∀ c < 16, c &&& 15 = c := by decide

theorem small_shift4 : ∀ c < 16, c >>> 4 = 0 := by decide

theorem small_and_E0 : ∀ c < 16, c &&& 0xE0 = 0 := by decide

theorem small_and_16 : ∀ c < 16, c &&& 0x10 = 0 := by decide

theorem masked_low_nibble (x : Nat) : (x &&& 0xE0) &&& 15 = 0 := by
  rw [Nat.and_assoc, show ((0xE0 : Nat) &&& 15) = 0 from rfl, Nat.and_zero]

theorem crc4_three_bytes (b1 b2 : Nat) :
    crc4 [b1, b2] 3 = crc4Table.getD ((crc4Table.getD ((crc4Table.getD
      (0xa ^^^ ((b1 >>> 4) &&& 15)) 0) ^^^ (b1 &&& 15)) 0) ^^^ ((b2 >>> 4) &&& 15)) 0 := by
  rfl

theorem crc4_four_bytes (b1 b2 : Nat) :
    crc4 [b1, b2] 4 = crc4Table.getD ((crc4 [b1, b2] 3) ^^^ (b2 &&& 15)) 0 := by
  rfl

theorem crc4_header_valid (b1 b2p : Nat) (hlow : b2p &&& 15 = 0) :
    crc4 [b1, b2p ||| crc4 [b1, b2p] 3] 4 = 0 := by
  set c := crc4 [b1, b2p] 3 with hc
  have hc16 : c < 16 := crc4_lt _ _
  have hb2and : (b2p ||| c) &&& 15 = c := by
    rw [and_or_distrib_r, hlow, small_and_15 c hc16]
    simp
  have hb2shift : (b2p ||| c) >>> 4 = b2p >>> 4 := by
    rw [shiftRight_or_distrib, small_shift4 c hc16]
    simp
  have h3 : crc4 [b1, b2p ||| c] 3 = c := by
    rw [crc4_three_bytes, hb2shift, hc, crc4_three_bytes]
  rw [crc4_four_bytes, h3, hb2and, Nat.xor_self]
  rfl

set_option maxRecDepth 2000 in
theorem and_E0_arith : ∀ x < 256, x &&& 0xE0 = x / 32 % 8 * 32 := by decide

theorem psize_roundtrip (len : Nat) (h : len < 2048) :
    (len &&& 0xFF) ||| (((len >>> 3) &&& 0xE0) <<< 3) = len := by
  have h8 : len >>> 3 = len / 8 := by simp [Nat.shiftRight_eq_div_pow]
  have hlt : len / 8 < 256 := by omega
  have hhi : (len >>> 3) &&& 0xE0 = len / 256 * 32 := by
    rw [h8, and_E0_arith _ hlt]
    omega
  have hshift : (len / 256 * 32) <<< 3 = 2 ^ 8 * (len / 256) := by
    rw [Nat.shiftLeft_eq]
    ring
  rw [and_mod256, hhi, hshift]
  have hmod : len % 256 < 2 ^ 8 := by omega
  rw [Nat.or_comm, ← Nat.mul_add_lt_is_or hmod (len / 256)]
  omega

set_option maxHeartbeats 1000000 in
theorem framerRun_step (header stream : List Nat) (hle : header.length ≤ 2)
    (hst : 3 - header.length ≤ stream.length) :
    framerRun header stream =
      (match (header ++ stream.take (3 - header.length)).findIdx?
          (fun b => b = PREAMBLE_BYTE) with
       | Option.none => framerRun [] (stream.drop (3 - header.length))
       | some 0 =>
         if crc4 ((header ++ stream.take (3 - header.length)).drop 1) 4 ≠ 0 then
           framerRun ((header ++ stream.take (3 - header.length)).drop 1)
             (stream.drop (3 - header.length))
         else
           let header2 := header ++ stream.take (3 - header.length)
           let rest := stream.drop (3 - header.length)
           let payloadSize := header2.getD 1 0 |||
             ((header2.getD 2 0 &&& PAYLOAD_LENGTH_MASK) <<< 3)
           let crcReq := header2.getD 2 0 &&& CRC_PRESENT_FLAG ≠ 0
           if rest.length < payloadSize then []
           else
             let payload := rest.take payloadSize
             let rest2 := rest.drop payloadSize
             if crcReq then
               if rest2.length < 1 then []
               else if rest2.getD 0 0 ≠ crc8 payload then framerRun [] (rest2.drop 1)
               else payload :: framerRun [] (rest2.drop 1)
             else payload :: framerRun [] rest2
       | some (k + 1) =>
         framerRun ((header ++ stream.take (3 - header.length)).drop (k + 1))
           (stream.drop (3 - header.length))) := by
  rw [framerRun.eq_def]
  rw [if_neg (by omega), dif_neg (by omega)]

set_option maxHeartbeats 1000000 in
theorem framerRun_short (header stream : List Nat) (hle : header.length ≤ 2)
    (h : stream.length < 3 - header.length) : framerRun header stream = [] := by
  rw [framerRun.eq_def]
  rw [if_neg (by omega), dif_pos h]
theorem framer_deliver (b1 b2 : Nat) (data crcpart header stream : List Nat)
    (hh : header ++ stream.take (3 - header.length) = [0x5A, b1, b2])
    (hlen : header.length ≤ 2)
    (hs : 3 - header.length ≤ stream.length)
    (hrest : stream.drop (3 - header.length) = data ++ crcpart)
    (hcrc : crc4 [b1, b2] 4 = 0)
    (hsize : b1 ||| ((b2 &&& 0xE0) <<< 3) = data.length)
    (hcp : (b2 &&& 0x10 ≠ 0 ∧ crcpart = [crc8 data]) ∨
      (b2 &&& 0x10 = 0 ∧ crcpart = [])) :
    framerRun header stream = [data] := by
  rw [framerRun_step header stream hlen hs, hh, hrest]
  rw [show List.findIdx? (fun b => decide (b = PREAMBLE_BYTE)) [0x5A, b1, b2] = some 0 from rfl]
  rw [show ([0x5A, b1, b2].drop 1) = [b1, b2] from rfl]
  rw [if_neg (show ¬(crc4 [b1, b2] 4 ≠ 0) by simp [hcrc])]
  simp only [PAYLOAD_LENGTH_MASK, CRC_PRESENT_FLAG, List.getD_cons_zero, List.getD_cons_succ]
  rw [show ((0b11100000 : Nat) = 0xE0) from rfl, show ((0b00010000 : Nat) = 0x10) from rfl]
  rw [hsize]
  rw [if_neg (show ¬((data ++ crcpart).length < data.length) by
    simp only [List.length_append]
    omega)]
  rw [List.take_left, List.drop_left]
  rcases hcp with ⟨hne0, hcpeq⟩ | ⟨h0, hcpeq⟩
  · rw [if_pos hne0, hcpeq]
    rw [if_neg (show ¬(([crc8 data] : List Nat).length < 1) by simp)]
    rw [show ([crc8 data] : List Nat).getD 0 0 = crc8 data from rfl]
    rw [if_neg (show ¬(crc8 data ≠ crc8 data) by simp)]
    rw [show ([crc8 data] : List Nat).drop 1 = [] from rfl]
    rw [framerRun_short [] [] (by simp) (by simp)]
  · rw [if_neg (show ¬(b2 &&& 0x10 ≠ 0) by simp [h0]), hcpeq]
    rw [framerRun_short [] [] (by simp) (by simp)]
theorem framer_junk (b1 b2 : Nat) (data crcpart : List Nat)
    (hcrc : crc4 [b1, b2] 4 = 0)
    (hsize : b1 ||| ((b2 &&& 0xE0) <<< 3) = data.length)
    (hcp : (b2 &&& 0x10 ≠ 0 ∧ crcpart = [crc8 data]) ∨
      (b2 &&& 0x10 = 0 ∧ crcpart = [])) :
    ∀ (n : Nat) (junk : List Nat), junk.length ≤ n → (∀ j ∈ junk, j ≠ 0x5A) →
      framerRun [] (junk ++ (0x5A :: b1 :: b2 :: (data ++ crcpart))) = [data] := by
  have hdeliver0 : framerRun [] (0x5A :: b1 :: b2 :: (data ++ crcpart)) = [data] := by
    refine framer_deliver b1 b2 data crcpart [] _ rfl (by simp) ?_ rfl hcrc hsize hcp
    simp only [List.length_nil, List.length_cons]
    omega
  intro n
  induction n with
  | zero =>
    intro junk hn _hj
    have hjnil : junk = [] := List.eq_nil_of_length_eq_zero (by omega)
    subst hjnil
    simpa using hdeliver0
  | succ m ih =>
    intro junk hn hj
    rcases junk with _ | ⟨j1, rest1⟩
    · simpa using hdeliver0
    rcases rest1 with _ | ⟨j2, rest2⟩
    · have hj1 : j1 ≠ 0x5A := hj j1 (by simp)
      simp only [List.cons_append, List.nil_append]
      rw [framerRun_step [] _ (by simp) (by
        simp only [List.length_nil, List.length_cons]
        omega)]
      rw [show ([] : List Nat) ++
          (j1 :: 0x5A :: b1 :: b2 :: (data ++ crcpart)).take (3 - ([] : List Nat).length) =
          [j1, 0x5A, b1] from rfl]
      rw [show (j1 :: 0x5A :: b1 :: b2 :: (data ++ crcpart)).drop (3 - ([] : List Nat).length) =
          b2 :: (data ++ crcpart) from rfl]
      simp only [show List.findIdx? (fun b => decide (b = PREAMBLE_BYTE)) [j1, 0x5A, b1] = some 1 from by
        simp [List.findIdx?_cons, PREAMBLE_BYTE, hj1]]
      rw [show ([j1, 0x5A, b1] : List Nat).drop (0 + 1) = [0x5A, b1] from rfl]
      refine framer_deliver b1 b2 data crcpart [0x5A, b1] _ rfl (by simp) ?_ rfl hcrc hsize hcp
      simp only [List.length_cons]
      omega
    rcases rest2 with _ | ⟨j3, rest3⟩
    · have hj1 : j1 ≠ 0x5A := hj j1 (by simp)
      have hj2 : j2 ≠ 0x5A := hj j2 (by simp)
      simp only [List.cons_append, List.nil_append]
      rw [framerRun_step [] _ (by simp) (by
        simp only [List.length_nil, List.length_cons]
        omega)]
      rw [show ([] : List Nat) ++
          (j1 :: j2 :: 0x5A :: b1 :: b2 :: (data ++ crcpart)).take (3 - ([] : List Nat).length) =
          [j1, j2, 0x5A] from rfl]
      rw [show (j1 :: j2 :: 0x5A :: b1 :: b2 :: (data ++ crcpart)).drop
          (3 - ([] : List Nat).length) = b1 :: b2 :: (data ++ crcpart) from rfl]
      simp only [show List.findIdx? (fun b => decide (b = PREAMBLE_BYTE)) [j1, j2, 0x5A] = some 2 from by
        simp [List.findIdx?_cons, PREAMBLE_BYTE, hj1, hj2]]
      rw [show ([j1, j2, 0x5A] : List Nat).drop (1 + 1) = [0x5A] from rfl]
      refine framer_deliver b1 b2 data crcpart [0x5A] _ rfl (by simp) ?_ rfl hcrc hsize hcp
      simp only [List.length_cons]
      omega
    · have hj1 : j1 ≠ 0x5A := hj j1 (by simp)
      have hj2 : j2 ≠ 0x5A := hj j2 (by simp)
      have hj3 : j3 ≠ 0x5A := hj j3 (by simp)
      simp only [List.cons_append]
      rw [framerRun_step [] _ (by simp) (by
        simp only [List.length_nil, List.length_cons]
        omega)]
      rw [show ([] : List Nat) ++
          (j1 :: j2 :: j3 :: (rest3 ++ (0x5A :: b1 :: b2 :: (data ++ crcpart)))).take
            (3 - ([] : List Nat).length) = [j1, j2, j3] from rfl]
      rw [show (j1 :: j2 :: j3 :: (rest3 ++ (0x5A :: b1 :: b2 :: (data ++ crcpart)))).drop
          (3 - ([] : List Nat).length) = rest3 ++ (0x5A :: b1 :: b2 :: (data ++ crcpart))
          from rfl]
      simp only [show List.findIdx? (fun b => decide (b = PREAMBLE_BYTE)) [j1, j2, j3] = Option.none
          from by simp [List.findIdx?_cons, PREAMBLE_BYTE, hj1, hj2, hj3]]
      exact ih rest3 (by simp only [List.length_cons] at hn; omega)
        (fun j hjm => hj j (by simp [hjm]))
theorem pack_ok (data : List Nat) (crcflag : Bool) (hlen : data.length ≤ 2047) :
    pack data crcflag = .ok (0x5A :: (data.length &&& 0xFF) ::
      (((((data.length >>> 3) &&& 0xE0) ||| (if crcflag then 0x10 else 0)) |||
        crc4 [data.length &&& 0xFF,
          ((data.length >>> 3) &&& 0xE0) ||| (if crcflag then 0x10 else 0)] 3) ::
      (data ++ (if crcflag then [crc8 data] else [])))) := by
  simp only [pack, MAX_PAYLOAD_LENGTH, PAYLOAD_LENGTH_MASK, CRC_PRESENT_FLAG, PREAMBLE_BYTE]
  rw [if_neg (by omega)]
  rfl

theorem header_bits_facts (len : Nat) (flag : Nat) (hlen : len < 2048)
    (hf : flag = 0x10 ∨ flag = 0) :
    crc4 [len &&& 0xFF, (((len >>> 3) &&& 0xE0) ||| flag) |||
        crc4 [len &&& 0xFF, ((len >>> 3) &&& 0xE0) ||| flag] 3] 4 = 0 ∧
    ((len &&& 0xFF) |||
      ((((((len >>> 3) &&& 0xE0) ||| flag) |||
        crc4 [len &&& 0xFF, ((len >>> 3) &&& 0xE0) ||| flag] 3) &&& 0xE0) <<< 3) = len) ∧
    ((((len >>> 3) &&& 0xE0) ||| flag) |||
        crc4 [len &&& 0xFF, ((len >>> 3) &&& 0xE0) ||| flag] 3) &&& 0x10 = flag := by
  have hc16 : crc4 [len &&& 0xFF, ((len >>> 3) &&& 0xE0) ||| flag] 3 < 16 := crc4_lt _ _
  have hflag15 : flag &&& 15 = 0 := by rcases hf with rfl | rfl <;> rfl
  have hflagE0 : flag &&& 0xE0 = 0 := by rcases hf with rfl | rfl <;> rfl
  have hflag16 : flag &&& 0x10 = flag := by rcases hf with rfl | rfl <;> rfl
  have hhiE0 : ((len >>> 3) &&& 0xE0) &&& 0xE0 = (len >>> 3) &&& 0xE0 := by
    rw [Nat.and_assoc, Nat.and_self]
  have hhi16 : ((len >>> 3) &&& 0xE0) &&& 0x10 = 0 := by
    rw [Nat.and_assoc, show ((0xE0 : Nat) &&& 0x10) = 0 from rfl, Nat.and_zero]
  have hlow : (((len >>> 3) &&& 0xE0) ||| flag) &&& 15 = 0 := by
    rw [and_or_distrib_r, masked_low_nibble, hflag15, Nat.or_zero]
  refine ⟨crc4_header_valid _ _ hlow, ?_, ?_⟩
  · rw [and_or_distrib_r, and_or_distrib_r, hhiE0, hflagE0,
      small_and_E0 _ hc16, Nat.or_zero, Nat.or_zero]
    exact psize_roundtrip len hlen
  · rw [and_or_distrib_r, and_or_distrib_r, hhi16, hflag16,
      small_and_16 _ hc16, Nat.or_zero, Nat.zero_or]


/-! ## Claim theorems -/

/-- C7: for every `msg_type ∈ {0,1}`, `device_id < 16`, `class_id < 256`,
`command_id < 256` and `payload_len ≤ 2047`, parsing the four header bytes
produced by `make_header` with `parseHeader` yields exactly
`(msg_type, device_id, payload_len, class_id, command_id)`. -/
theorem C7_header_roundtrip
    (msg_type device_id class_id command_id payload_len : Nat)
    (hm : msg_type < 2) (hd : device_id < 16) (hc : class_id < 256)
    (hk : command_id < 256) (hp : payload_len ≤ 2047) :
    ∃ hdr, make_header msg_type device_id class_id command_id payload_len = .ok hdr ∧
      parseHeader hdr = (msg_type, device_id, payload_len, class_id, command_id) := by
  obtain ⟨f1, f2, f3⟩ := payload_split_bits payload_len (by omega)
  obtain ⟨e1, e2, e3, e4⟩ := headerByte0_bits msg_type hm device_id hd (payload_len >>> 8) f3
  have hok : make_header msg_type device_id class_id command_id payload_len =
      .ok [(msg_type <<< 7) ||| (device_id <<< 3) ||| (payload_len >>> 8),
           payload_len &&& 0xFF, class_id, command_id] := by
    simp only [make_header]
    rw [if_pos ⟨e4, f2, hc, hk⟩]
  refine ⟨_, hok, ?_⟩
  simp only [parseHeader, List.getD_cons_zero, List.getD_cons_succ]
  rw [e1, e2, e3, f1]

/-- Witness for C7 at a concrete header. -/
theorem C7_header_roundtrip_witness :
    ∃ hdr, make_header 1 5 3 7 300 = .ok hdr ∧ parseHeader hdr = (1, 5, 300, 3, 7) :=
  C7_header_roundtrip 1 5 3 7 300 (by norm_num) (by norm_num) (by norm_num)
    (by norm_num) (by norm_num)

/-- C10: for every command whose parameter list is empty and the empty
argument tuple, `Serializer.command` returns exactly the 4-byte header with
`payload_len` 0 and no payload bytes after it. -/
theorem C10_empty_command
    (apis : List ApiM) (device_id : Nat) (cn mn : String)
    (api : ApiM) (cls : ApiClassM) (cmd : ApiCommandM)
    (hapi : findApi apis device_id = some api)
    (hcls : api.classByName cn = some cls)
    (hcmd : cls.commandByName mn = some cmd)
    (hparams : cmd.params = [])
    (hd : device_id < 16) (hci : cls.index < 256) (hki : cmd.index < 256) :
    ∃ hdr, make_header MSG_COMMAND device_id cls.index cmd.index 0 = .ok hdr ∧
      Serializer.command apis device_id cn mn [] = .ok hdr ∧ hdr.length = 4 := by
  obtain ⟨e1, e2, e3, e4⟩ := headerByte0_bits MSG_COMMAND (by norm_num [MSG_COMMAND])
    device_id hd (0 >>> 8) (by norm_num)
  have hok : make_header MSG_COMMAND device_id cls.index cmd.index 0 =
      .ok [(MSG_COMMAND <<< 7) ||| (device_id <<< 3) ||| (0 >>> 8),
           0 &&& 0xFF, cls.index, cmd.index] := by
    simp only [make_header]
    rw [if_pos ⟨e4, by norm_num, hci, hki⟩]
  refine ⟨_, hok, ?_, by simp⟩
  simp only [Serializer.command, hapi, hcls, hcmd, hparams, parseParameters, packAll]
  norm_num
  norm_num at hok
  rw [hok]
  rfl

/-- Witness for C10 on the concrete demo API. -/
theorem C10_empty_command_witness :
    ∃ hdr, make_header MSG_COMMAND 0 demoCls.index demoCmd.index 0 = .ok hdr ∧
      Serializer.command [demoApi] 0 "system" "hello" [] = .ok hdr ∧ hdr.length = 4 :=
  C10_empty_command [demoApi] 0 "system" "hello" demoApi demoCls demoCmd
    (by decide) (by decide) (by decide) (by decide) (by decide) (by decide) (by decide)

/-- C9: an inbound response frame (`msg_type = 0`) whose class index or
command index is missing from the resolved device API makes
`Deserializer.parse` raise a plain `KeyError`, which is not one of the
`DeserializerError` subclasses raised for an unknown device
(`DeserializerApiMissingError`) or an unknown event
(`DeserializerEventMissingError`). -/
theorem C9_unknown_class_or_command_keyError
    (apis : List ApiM) (header payload : List Nat)
    (fromHost enumdefines : Bool) (did plen ci ki : Nat) (api : ApiM)
    (hhf : parseHeader header = (MSG_COMMAND, did, plen, ci, ki))
    (hapi : findApi apis did = some api)
    (hmiss : api.classByIndex ci = Option.none ∨
      ∃ cls, api.classByIndex ci = some cls ∧ cls.commandByIndex ki = Option.none) :
    Deserializer.parse apis header payload fromHost enumdefines = .error .keyError ∧
    isDeserializerError .keyError = false ∧
    (∀ d, (PyErr.keyError ≠ .apiMissing d)) ∧
    (∀ c e, (PyErr.keyError ≠ .eventMissing c e)) := by
  refine ⟨?_, rfl, fun d => by simp, fun c e => by simp⟩
  simp only [Deserializer.parse, hhf, hapi]
  rcases hmiss with hnone | ⟨cls, hcls, hknone⟩
  · simp [hnone]
  · simp [hcls, hknone]

/-- Witness for C9: class index 9 and command index 9 are absent from the
demo API. -/
theorem C9_unknown_class_or_command_keyError_witness :
    Deserializer.parse [demoApi] [0x00, 0x00, 0x09, 0x09] [] false true = .error .keyError ∧
    isDeserializerError .keyError = false ∧
    (∀ d, (PyErr.keyError ≠ .apiMissing d)) ∧
    (∀ c e, (PyErr.keyError ≠ .eventMissing c e)) :=
  C9_unknown_class_or_command_keyError [demoApi] [0x00, 0x00, 0x09, 0x09] [] false true
    0 0 9 9 demoApi (by decide) (by decide) (Or.inl (by decide))

theorem send_command_ok (node : ApiNodeM) (vals : List PyValue) (r : BGResponseM)
    (h : send_command node vals = .ok r) : r = ⟨node, vals⟩ := by
  have hmk : ∀ r0, mkBGResponse node vals = .ok r0 → r0 = ⟨node, vals⟩ := by
    intro r0 h0
    unfold mkBGResponse at h0
    split at h0
    · exact (Except.ok.inj h0).symm
    · exact absurd h0 (by simp)
  unfold send_command at h
  split at h
  · exact absurd h (by simp)
  next r0 heq =>
    split at h
    · exact absurd h (by simp)
    next ec hec =>
      split at h
      · split at h <;> exact absurd h (by simp)
      · rw [← Except.ok.inj h]
        exact hmk r0 heq

/-- C5: when the decoded response's `errorcode` return parameter (the
first return parameter whose datatype is named `errorcode`) carries the
integer value `e`, `send_command` raises `CommandFailedError` carrying
exactly `e` and the entire response if `e ≠ 0`, and returns the response
normally if `e = 0`. -/
theorem C5_errorcode_failure
    (node : ApiNodeM) (vals : List PyValue) (e : Int)
    (hlen : vals.length ≤ node.returns.length)
    (hec : BGResponseM.errorcode ⟨node, vals⟩ = .ok (.int e)) :
    (e ≠ 0 → send_command node vals = .error (.commandFailed e ⟨node, vals⟩)) ∧
    (e = 0 → send_command node vals = .ok ⟨node, vals⟩) := by
  have hmk : mkBGResponse node vals = .ok (⟨node, vals⟩ : BGResponseM) := by
    unfold mkBGResponse
    rw [if_pos hlen]
  constructor
  · intro hne
    simp only [send_command, hmk, hec]
    rw [if_pos (by simp [pyNeZero, hne])]
  · intro hz
    simp only [send_command, hmk, hec]
    rw [if_neg (by simp [pyNeZero, hz])]

/-- Witness for C5: the test scenario response payload value `0x1234` on a
command declaring an `errorcode` return. -/
theorem C5_errorcode_failure_witness :
    ((0x1234 : Int) ≠ 0 → send_command nodeHello [.int 0x1234] =
      .error (.commandFailed 0x1234 ⟨nodeHello, [.int 0x1234]⟩)) ∧
    ((0x1234 : Int) = 0 → send_command nodeHello [.int 0x1234] =
      .ok ⟨nodeHello, [.int 0x1234]⟩) :=
  C5_errorcode_failure nodeHello [.int 0x1234] 0x1234 (by decide) (by decide)

/-- C6 counterexample: a response whose `(device, class, command)` triple
differs from the outgoing command's but whose `errorcode` return value is
non-zero raises `CommandFailedError` inside `send_command`, not the
`"Wrong response"` error the claim requires for every mismatched triple. -/
theorem C6_counterexample :
    apiCommand nodeHello nodeOther [.int 1] =
      .error (.commandFailed 1 ⟨nodeOther, [.int 1]⟩) ∧
    (nodeOther.deviceName, nodeOther.className, nodeOther.msgName) ≠
      (nodeHello.deviceName, nodeHello.className, nodeHello.msgName) ∧
    (Except.error (CmdErr.commandFailed 1 ⟨nodeOther, [.int 1]⟩) :
      Except CmdErr (Option BGResponseM)) ≠ .error .wrongResponse := by
  decide

/-- C6 amended: a mismatched `(device, class, command)` triple raises the
`"Wrong response"` error provided `send_command` accepted the response
(in particular its `errorcode`, if declared, decoded to zero); a non-zero
`errorcode` preempts the identity check with `CommandFailedError`. -/
theorem C6_wrong_response
    (apicmd respNode : ApiNodeM) (respVals : List PyValue) (r : BGResponseM)
    (hnr : apicmd.no_return = false)
    (hok : send_command respNode respVals = .ok r)
    (hne : (respNode.deviceName, respNode.className, respNode.msgName) ≠
      (apicmd.deviceName, apicmd.className, apicmd.msgName)) :
    apiCommand apicmd respNode respVals = .error .wrongResponse := by
  have hr := send_command_ok respNode respVals r hok
  unfold apiCommand
  rw [hnr]
  simp only [Bool.false_eq_true, if_false, hok]
  rw [if_pos (by rw [hr]; exact hne)]

/-- Witness for C6 with a zero errorcode and mismatched command name. -/
theorem C6_wrong_response_witness :
    apiCommand nodeHello nodeOther [.int 0] = .error .wrongResponse :=
  C6_wrong_response nodeHello nodeOther [.int 0] ⟨nodeOther, [.int 0]⟩
    (by decide) (by decide) (by decide)

/-- C2: the claimed validator-aware encoding cannot run: with a validator
present, `Serializer._convertEnumDefine` evaluates the undefined Python 2
name `basestring` and raises `NameError` for every argument — enum symbol,
define symbols and numeric literals alike — whereas the spec-modelled
intended conversion yields the member's value, the or-ed define values,
and the literal's numeric value. -/
theorem C2_validator_encoding
    : Serializer.convertEnumDefine pConnMode (.str "on") [gConnMode] [gFlags] =
        .error .nameError ∧
      Serializer.convertEnumDefine pConnMode (.str "0x12") [gConnMode] [gFlags] =
        .error .nameError ∧
      Serializer.convertEnumDefine pFlags (.str "a|b") [gConnMode] [gFlags] =
        .error .nameError ∧
      Serializer.convertEnumDefine pFlags (.int 3) [gConnMode] [gFlags] =
        .error .nameError ∧
      convertEnumDefineSpec pConnMode (.str "on") [gConnMode] [gFlags] = .ok 1 ∧
      convertEnumDefineSpec pFlags (.str "a|b") [gConnMode] [gFlags] = .ok 3 ∧
      convertEnumDefineSpec pConnMode (.str "0x12") [gConnMode] [gFlags] = .ok 18 := by
  decide

/-- C4: decoding with the default validator conversion turns an
enum-validated scalar into the member's name, but every define-validated
decode raises `AttributeError` (the source reads the nonexistent attribute
`apiparam.defines`) instead of producing the claimed `|`-joined names. -/
theorem C4_decode_validator
    : Deserializer.convertEnumDefine pConnMode (.int 1) [gConnMode] [gFlags] =
        .ok (.str "on") ∧
      Deserializer.convertEnumDefine pFlags (.int 3) [gConnMode] [gFlags] =
        .error .attributeError ∧
      parsePayload [pConnMode] [1] [gConnMode] [gFlags] true = .ok ([.str "on"], []) ∧
      parsePayload [pFlags] [3] [gConnMode] [gFlags] true = .error .attributeError := by
  decide

theorem unpackFields_length (fields : List (ApiParam × Nat)) (bs : List Nat) :
    (unpackFields fields bs).length = fields.length := by
  induction fields generalizing bs with
  | nil => rfl
  | cons f rest ih =>
    obtain ⟨p, sz⟩ := f
    simp [unpackFields, ih]

theorem scanParams_split (params : List ApiParam) (payload : List Nat) (pos0 : Nat)
    (fields : List (ApiParam × Nat)) (fin : Nat) (missing : List ApiParam)
    (h : scanParams params payload pos0 = .ok (fields, fin, missing)) :
    params = fields.map (fun f => f.1) ++ missing ∧ fin = pos0 + sizesSum fields := by
  induction params generalizing fields pos0 with
  | nil =>
    simp only [scanParams, Except.ok.injEq, Prod.mk.injEq] at h
    obtain ⟨h1, h2, h3⟩ := h
    subst h1; subst h2; subst h3
    simp [sizesSum]
  | cons p ps ih =>
    simp only [scanParams] at h
    split at h
    · simp only [Except.ok.injEq, Prod.mk.injEq] at h
      obtain ⟨h1, h2, h3⟩ := h
      subst h1; subst h2; subst h3
      simp [sizesSum]
    · cases hsz : unpackerSize p ((payload.drop pos0).take 2) with
      | error e => rw [hsz] at h; simp at h
      | ok sz =>
        rw [hsz] at h
        simp only [ok_bind] at h
        cases hrec : scanParams ps payload (pos0 + sz) with
        | error e => rw [hrec] at h; simp at h
        | ok trip =>
          obtain ⟨fields', fin', missing'⟩ := trip
          rw [hrec] at h
          simp only [ok_bind, Except.ok.injEq, Prod.mk.injEq] at h
          obtain ⟨h1, h2, h3⟩ := h
          subst h1; subst h2; subst h3
          obtain ⟨e1, e2⟩ := ih (pos0 + sz) fields' hrec
          refine ⟨by simpa using e1, ?_⟩
          simp only [sizesSum, List.map_cons, List.sum_cons] at e2 ⊢
          omega

theorem convertValue_not_text (fmt : ParamFormat) (v : PyValue)
    (h1 : fmt ≠ .bd_addr) (h2 : fmt ≠ .hw_addr) (h3 : fmt ≠ .ipv4) :
    convertValue fmt v = .ok v := by
  cases fmt <;> first
    | rfl
    | exact absurd rfl h1
    | exact absurd rfl h2
    | exact absurd rfl h3

theorem convertValue_unpackField (p : ApiParam) (bs : List Nat) :
    ∃ w, convertValue p.format (unpackField p bs) = .ok w := by
  cases hf : p.format <;>
    simp only [unpackField, convertValue, hf] <;>
    exact ⟨_, rfl⟩

theorem mapM_convert_unpacked (fields : List (ApiParam × Nat)) (bs : List Nat) :
    ∃ cvals, ((unpackFields fields bs).zip (fields.map (fun f => f.1))).mapM
        (fun x => convertValue x.2.format x.1) = .ok cvals ∧
      cvals.length = fields.length := by
  induction fields generalizing bs with
  | nil => exact ⟨[], rfl, rfl⟩
  | cons f rest ih =>
    obtain ⟨p, sz⟩ := f
    obtain ⟨w, hw⟩ := convertValue_unpackField p (bs.take sz)
    obtain ⟨cvals, hc, hlen⟩ := ih (bs.drop sz)
    refine ⟨w :: cvals, ?_, by simp [hlen]⟩
    simp only [unpackFields, List.map_cons, List.zip_cons_cons, List.mapM_cons, hw, hc, ok_bind]
    rfl

theorem mapM_convert_none (ps : List ApiParam)
    (h : ∀ p ∈ ps, p.format ≠ .bd_addr ∧ p.format ≠ .hw_addr ∧ p.format ≠ .ipv4) :
    ((List.replicate ps.length PyValue.none).zip ps).mapM
      (fun x => convertValue x.2.format x.1) =
      .ok (List.replicate ps.length PyValue.none) := by
  induction ps with
  | nil => rfl
  | cons p rest ih =>
    obtain ⟨h1, h2, h3⟩ := h p (by simp)
    simp only [List.length_cons, List.replicate_succ, List.zip_cons_cons, List.mapM_cons,
      convertValue_not_text p.format _ h1 h2 h3, ih (fun q hq => h q (by simp [hq])), ok_bind]
    rfl

theorem mapM_enumdefine_id (xs : List PyValue) (ps : List ApiParam)
    (hv : ∀ p ∈ ps, p.validator = Option.none) (hlen : xs.length = ps.length)
    (es ds : List EnumGroup) :
    (xs.zip ps).mapM (fun x => Deserializer.convertEnumDefine x.2 x.1 es ds) = .ok xs := by
  induction xs generalizing ps with
  | nil =>
    cases ps with
    | nil => rfl
    | cons q qs => simp at hlen
  | cons x xs' ih =>
    cases ps with
    | nil => simp at hlen
    | cons q qs =>
      have hq : q.validator = Option.none := hv q (by simp)
      have : Deserializer.convertEnumDefine q x es ds = .ok x := by
        simp [Deserializer.convertEnumDefine, hq]
      simp only [List.zip_cons_cons, List.mapM_cons, this, ok_bind,
        ih qs (fun r hr => hv r (by simp [hr])) (by simpa using hlen)]
      rfl

theorem head?_take (l : List Nat) (k : Nat) (hk : 1 ≤ k) :
    (l.take k).head? = l.head? := by
  cases l with
  | nil => simp
  | cons a rest =>
    cases k with
    | zero => omega
    | succ k2 => simp

theorem unpackerSize_take (p : ApiParam) (payload : List Nat) (pos0 fin sz : Nat)
    (h : unpackerSize p ((payload.drop pos0).take 2) = .ok sz)
    (hle : pos0 + min sz 2 ≤ fin) (hsz1 : 1 ≤ sz) (_hfin : fin ≤ payload.length) :
    unpackerSize p (((payload.take fin).drop pos0).take 2) = .ok sz := by
  have hslice : ((payload.take fin).drop pos0).take 2 =
      (payload.drop pos0).take (min 2 (fin - pos0)) := by
    rw [List.drop_take, List.take_take, Nat.min_comm]
  cases hf : p.format
  case uint8array =>
    simp only [unpackerSize, hf] at h ⊢
    rw [head?_take _ _ (by omega : (1 : Nat) ≤ 2)] at h
    rw [hslice, head?_take _ _ (by omega)]
    exact h
  case uint16array =>
    simp only [unpackerSize, hf] at h ⊢
    by_cases hlen2 : ((payload.drop pos0).take 2).length < 2
    · rw [if_pos hlen2] at h
      exact absurd h (by simp)
    · rw [if_neg hlen2] at h
      have hsz2 : 2 ≤ sz := by
        have h2 := Except.ok.inj h
        omega
      have hmin : min 2 (fin - pos0) = 2 := by omega
      rw [hslice, hmin]
      rw [if_neg hlen2]
      exact h
  all_goals simp only [unpackerSize, hf] at h ⊢
  all_goals exact h

theorem scanParams_take (params : List ApiParam) (payload : List Nat)
    (pos0 fin : Nat) (fields : List (ApiParam × Nat))
    (h : scanParams params payload pos0 = .ok (fields, fin, []))
    (hpos : ∀ f ∈ fields, 1 ≤ f.2)
    (hfin : fin ≤ payload.length) :
    scanParams params (payload.take fin) pos0 = .ok (fields, fin, []) := by
  induction params generalizing fields pos0 with
  | nil =>
    simp only [scanParams, Except.ok.injEq, Prod.mk.injEq] at h ⊢
    exact h
  | cons p ps ih =>
    simp only [scanParams] at h ⊢
    split at h
    · simp only [Except.ok.injEq, Prod.mk.injEq] at h
      exact absurd h.2.2 (by simp)
    · next hlt =>
      cases hsz : unpackerSize p ((payload.drop pos0).take 2) with
      | error e => rw [hsz] at h; simp at h
      | ok sz =>
        rw [hsz] at h
        simp only [ok_bind] at h
        cases hrec : scanParams ps payload (pos0 + sz) with
        | error e => rw [hrec] at h; simp at h
        | ok trip =>
          obtain ⟨fields', fin', missing'⟩ := trip
          rw [hrec] at h
          simp only [ok_bind, Except.ok.injEq, Prod.mk.injEq] at h
          obtain ⟨h1, h2, h3⟩ := h
          subst h1; subst h3
          rw [h2] at hrec
          obtain ⟨hsplit, hfineq⟩ := scanParams_split ps payload (pos0 + sz) fields' fin [] hrec
          have hsz1 : 1 ≤ sz := hpos (p, sz) (by simp)
          have hfinlb : pos0 + sz ≤ fin := by
            have : 0 ≤ sizesSum fields' := Nat.zero_le _
            omega
          rw [if_neg (by simp only [List.length_take]; omega)]
          rw [unpackerSize_take p payload pos0 fin sz hsz (by omega) hsz1 hfin]
          simp only [ok_bind]
          rw [ih (pos0 + sz) fields' hrec (fun f hf => hpos f (by simp [hf]))]
          rfl

/-! ## Lemmas for the serialize/deserialize roundtrip (C1) -/

theorem packUnsigned_spec (w : Nat) (i : Int) (h0 : 0 ≤ i)
    (h1 : i < (2 : Int) ^ (8 * w)) :
    packUnsigned w i = .ok (leBytes w i.toNat) := by
  simp [packUnsigned, h0, h1]

theorem packSigned_spec (w : Nat) (i : Int)
    (h0 : -(2 : Int) ^ (8 * w - 1) ≤ i) (h1 : i < (2 : Int) ^ (8 * w - 1)) :
    packSigned w i = .ok (leBytes w (i.emod ((2 : Int) ^ (8 * w))).toNat) := by
  simp [packSigned, h0, h1]

theorem unpackUnsigned_leBytes (w : Nat) (i : Int) (h0 : 0 ≤ i)
    (h1 : i < (2 : Int) ^ (8 * w)) :
    unpackUnsigned (leBytes w i.toNat) = i := by
  obtain ⟨bs, hok, hun⟩ := unpack_pack_unsigned w i h0 h1
  rw [packUnsigned_spec w i h0 h1] at hok
  rw [Except.ok.inj hok]
  exact hun

theorem unpackSigned_leBytes (w : Nat) (i : Int) (hw : 1 ≤ w)
    (h0 : -(2 : Int) ^ (8 * w - 1) ≤ i) (h1 : i < (2 : Int) ^ (8 * w - 1)) :
    unpackSigned w (leBytes w (i.emod ((2 : Int) ^ (8 * w))).toNat) = i := by
  obtain ⟨bs, hok, hun⟩ := unpack_pack_signed w i hw h0 h1
  rw [packSigned_spec w i h0 h1] at hok
  rw [Except.ok.inj hok]
  exact hun

theorem parse_single (p : ApiParam) (wire : List Nat) (v : PyValue)
    (hval : p.validator = Option.none)
    (hne : wire ≠ [])
    (hsz : unpackerSize p (wire.take 2) = .ok wire.length)
    (hcv : convertValue p.format (unpackField p wire) = .ok v) :
    parsePayload [p] wire [] [] true = .ok ([v], []) := by
  have hlen0 : ¬ wire.length ≤ 0 := by
    simp only [Nat.le_zero, List.length_eq_zero]
    exact hne
  have hscan : scanParams [p] wire 0 = .ok ([(p, wire.length)], wire.length, []) := by
    simp only [scanParams, List.drop_zero]
    rw [if_neg hlen0, hsz]
    simp only [ok_bind, scanParams, Nat.zero_add]
  have hunp : structUnpack [(p, wire.length)] wire = .ok [unpackField p wire] := by
    unfold structUnpack
    rw [if_pos (by simp [sizesSum])]
    simp only [unpackFields, List.take_length]
  have hconv : ([unpackField p wire].zip [p]).mapM
      (fun x => convertValue x.2.format x.1) = .ok [v] := by
    simp only [List.zip_cons_cons, List.zip_nil_left, List.mapM_cons, List.mapM_nil, hcv, ok_bind]
    rfl
  simp only [parsePayload, hscan, ok_bind]
  simp only [if_neg (lt_irrefl wire.length)]
  rw [hunp]
  simp only [ok_bind, List.length_cons, List.length_nil, Nat.sub_self, List.replicate_zero,
    List.append_nil]
  rw [hconv]
  simp only [ok_bind, if_true]
  rw [mapM_enumdefine_id [v] [p] (by simpa using hval) (by simp) [] []]
  simp only [ok_bind]
  rfl

theorem padTrunc_self (n : Nat) (bs : List Nat) (h : bs.length = n) :
    padTrunc n bs = bs := by
  subst h
  simp [padTrunc]

theorem to_bytes_chars (cs : List Char) (h : ∀ c ∈ cs, c.toNat < 256) :
    to_bytes (.str (String.mk cs)) = .ok (cs.map Char.toNat) := by
  simp only [to_bytes]
  rw [if_pos (List.all_eq_true.mpr (fun c hc => decide_eq_true (h c hc)))]

theorem hexChar_toNat_lt (d : Nat) (h : d < 16) : (hexChar d).toNat < 256 := by
  interval_cases d <;> decide

theorem hexChar_toNat_ne_colon (d : Nat) (h : d < 16) : (hexChar d).toNat ≠ 58 := by
  interval_cases d <;> decide

theorem hexChar_not_ws (d : Nat) (h : d < 16) : (hexChar d).isWhitespace = false := by
  interval_cases d <;> decide

theorem hexChar_ne_minus (d : Nat) (h : d < 16) : hexChar d ≠ Char.ofNat 45 := by
  interval_cases d <;> decide

theorem hexChar_ne_plus (d : Nat) (h : d < 16) : hexChar d ≠ Char.ofNat 43 := by
  interval_cases d <;> decide

theorem mem_hexPair (b : Nat) (c : Char) (hc : c ∈ hexPair b) :
    c = hexChar (b / 16) ∨ c = hexChar (b % 16) := by
  simpa [hexPair] using hc

theorem mem_joinSep (sep : Char) (chunks : List (List Char)) :
    ∀ c ∈ joinSep sep chunks, c = sep ∨ ∃ ch ∈ chunks, c ∈ ch := by
  induction chunks with
  | nil => intro c hc; simp [joinSep] at hc
  | cons ch chs ih =>
    cases chs with
    | nil =>
      intro c hc
      exact Or.inr ⟨ch, by simp, by simpa [joinSep] using hc⟩
    | cons ch2 chs2 =>
      intro c hc
      rw [show joinSep sep (ch :: ch2 :: chs2) =
          ch ++ sep :: joinSep sep (ch2 :: chs2) from rfl] at hc
      rcases List.mem_append.mp hc with hm | hm
      · exact Or.inr ⟨ch, by simp, hm⟩
      · rcases List.mem_cons.mp hm with rfl | hm2
        · exact Or.inl rfl
        · rcases ih c hm2 with h1 | ⟨ch3, hch3, hc3⟩
          · exact Or.inl h1
          · exact Or.inr ⟨ch3, List.mem_cons_of_mem ch hch3, hc3⟩

theorem joinSep_filter (sep : Char) (p : Char → Bool) (chunks : List (List Char))
    (hsep : p sep = false) (hch : ∀ ch ∈ chunks, ∀ c ∈ ch, p c = true) :
    (joinSep sep chunks).filter p = chunks.flatten := by
  induction chunks with
  | nil => rfl
  | cons ch chs ih =>
    cases chs with
    | nil =>
      rw [show joinSep sep [ch] = ch from rfl]
      rw [List.filter_eq_self.mpr (hch ch (by simp))]
      simp
    | cons ch2 chs2 =>
      rw [show joinSep sep (ch :: ch2 :: chs2) =
          ch ++ sep :: joinSep sep (ch2 :: chs2) from rfl]
      rw [List.filter_append, List.filter_cons]
      rw [if_neg (by rw [hsep]; simp)]
      rw [List.filter_eq_self.mpr (hch ch (by simp))]
      rw [ih (fun c hc => hch c (List.mem_cons_of_mem ch hc))]
      simp

theorem addr_chars_lt (ts : List Nat) (h : ∀ b ∈ ts, b < 256) :
    ∀ c ∈ joinSep ':' (ts.map hexPair), c.toNat < 256 := by
  intro c hc
  rcases mem_joinSep ':' (ts.map hexPair) c hc with rfl | ⟨ch, hch, hcch⟩
  · decide
  · obtain ⟨b, hb, rfl⟩ := List.mem_map.mp hch
    have hb256 := h b hb
    rcases mem_hexPair b c hcch with rfl | rfl
    · exact hexChar_toNat_lt _ (by omega)
    · exact hexChar_toNat_lt _ (by omega)

theorem addr_filter_unhex (ts : List Nat) (h : ∀ b ∈ ts, b < 256) :
    unhexlify ((((joinSep ':' (ts.map hexPair)).map Char.toNat).filter
      (fun b => b ≠ 58)).map Char.ofNat) = .ok ts := by
  rw [List.filter_map]
  have hfil : List.filter ((fun b => decide ¬ b = 58) ∘ Char.toNat)
      (joinSep ':' (ts.map hexPair)) = (ts.map hexPair).flatten := by
    apply joinSep_filter
    · decide
    · intro ch hch c hc
      obtain ⟨b, hb, rfl⟩ := List.mem_map.mp hch
      have hb256 := h b hb
      simp only [Function.comp_apply]
      rcases mem_hexPair b c hc with rfl | rfl
      · exact decide_eq_true (hexChar_toNat_ne_colon _ (by omega))
      · exact decide_eq_true (hexChar_toNat_ne_colon _ (by omega))
  have hid : ∀ l : List Char, List.map Char.ofNat (List.map Char.toNat l) = l := by
    intro l
    induction l with
    | nil => rfl
    | cons a l2 ih2 => simp [ih2, Char.ofNat_toNat]
  rw [hfil, hid]
  rw [← List.flatMap_def]
  exact unhexlify_hexPair ts h

theorem dropWhile_all_false (p : Char → Bool) (l : List Char)
    (h : ∀ c ∈ l, p c = false) : l.dropWhile p = l := by
  cases l with
  | nil => rfl
  | cons c rest =>
    rw [List.dropWhile_cons, if_neg (by rw [h c (by simp)]; simp)]

theorem pyStrip_id (cs : List Char) (h : ∀ c ∈ cs, c.isWhitespace = false) :
    pyStrip cs = cs := by
  unfold pyStrip
  rw [dropWhile_all_false _ cs h]
  rw [dropWhile_all_false _ cs.reverse (fun c hc => h c (List.mem_reverse.mp hc))]
  exact List.reverse_reverse cs

theorem decChars_ne_nil (n : Nat) : decChars n ≠ [] := by
  rw [decChars]
  split
  · simp
  · simp

theorem pyIntOfChars_decChars (t : Nat) : pyIntOfChars 10 (decChars t) = .ok (t : Int) := by
  cases h : decChars t with
  | nil => exact absurd h (decChars_ne_nil t)
  | cons c rest =>
    obtain ⟨d, hd, hcd⟩ := decChars_digit t c (by rw [h]; simp)
    have hcm : c ≠ '-' := by subst hcd; exact hexChar_ne_minus d (by omega)
    have hcp : c ≠ '+' := by subst hcd; exact hexChar_ne_plus d (by omega)
    simp only [pyIntOfChars, if_neg hcm, if_neg hcp]
    rw [← h, parseDigits_decChars t 0]
    norm_num

theorem ipv4_pack_bytes (ts : List Nat) (h : ∀ t ∈ ts, t < 256) :
    ∃ ns, (ts.map decChars).mapM (fun ch => pyIntOfChars 10 (pyStrip ch)) = .ok ns ∧
      ns.mapM (fun n => if 0 ≤ n ∧ n < 256 then (.ok n.toNat : Except PyErr Nat)
        else .error .structError) = .ok ts := by
  induction ts with
  | nil => exact ⟨[], rfl, rfl⟩
  | cons t rest ih =>
    obtain ⟨ns, h1, h2⟩ := ih (fun x hx => h x (List.mem_cons_of_mem t hx))
    have ht : t < 256 := h t (by simp)
    have hstrip : pyStrip (decChars t) = decChars t :=
      pyStrip_id _ (fun c hc => by
        obtain ⟨d, hd, rfl⟩ := decChars_digit t c hc
        exact hexChar_not_ws d (by omega))
    refine ⟨(t : Int) :: ns, ?_, ?_⟩
    · simp only [List.map_cons, List.mapM_cons, hstrip, pyIntOfChars_decChars, h1, ok_bind]
      rfl
    · simp only [List.mapM_cons]
      rw [if_pos ⟨by omega, by omega⟩]
      rw [show ((t : Int)).toNat = t from rfl]
      simp only [h2, ok_bind]
      rfl

theorem ipv4_chars_not_dot (t : Nat) : ('.' : Char) ∉ decChars t := by
  intro hin
  obtain ⟨d, hd, hcd⟩ := decChars_digit t '.' hin
  exact hexChar_ne_dot d (by omega) hcd.symm



/-- C3 counterexample: a payload shorter than its parameter list requires
does not always produce the `None`-filled value list the claim promises —
when the payload ends inside a fixed-width field (one byte for a `uint16`
parameter) the `struct.unpack` at the end of `Deserializer.parse` raises
`struct.error` and no value list or warning is produced. -/
theorem C3_counterexample :
    parsePayload [pUint16] [0x34] [] [] true = .error .structError := by
  decide

/-- C3 amended: part (a): for an under-length payload that ends exactly on
a field boundary, with the remaining parameters decoded without text
rendering and no validators in play, `Deserializer.parse` stops decoding at
the end of the payload, fills each remaining parameter slot with `None`,
and emits the missing-parameters warning.  Part (b): for an over-length
payload the trailing bytes are ignored with an extra-bytes warning, and the
decoded values are exactly those of the truncated payload. -/
theorem C3_length_mismatch :
    (∀ (params : List ApiParam) (payload : List Nat) (es ds : List EnumGroup)
        (fields : List (ApiParam × Nat)) (missing : List ApiParam),
      (∀ p ∈ params, p.validator = Option.none) →
      scanParams params payload 0 = .ok (fields, payload.length, missing) →
      missing ≠ [] →
      (∀ p ∈ missing, p.format ≠ .bd_addr ∧ p.format ≠ .hw_addr ∧ p.format ≠ .ipv4) →
      ∃ vals cvals,
        structUnpack fields payload = .ok vals ∧
        (vals.zip (fields.map (fun f => f.1))).mapM
          (fun x => convertValue x.2.format x.1) = .ok cvals ∧
        parsePayload params payload es ds true =
          .ok (cvals ++ List.replicate missing.length PyValue.none,
               [Warn.missingParams (missing.map (fun p => p.name))])) ∧
    (∀ (params : List ApiParam) (payload : List Nat) (es ds : List EnumGroup)
        (fields : List (ApiParam × Nat)) (pos : Nat),
      (∀ p ∈ params, p.validator = Option.none) →
      scanParams params payload 0 = .ok (fields, pos, []) →
      pos < payload.length →
      (∀ f ∈ fields, 1 ≤ f.2) →
      ∃ vals cvals,
        structUnpack fields (payload.take pos) = .ok vals ∧
        (vals.zip (fields.map (fun f => f.1))).mapM
          (fun x => convertValue x.2.format x.1) = .ok cvals ∧
        parsePayload params payload es ds true =
          .ok (cvals, [Warn.extraBytes (payload.length - pos)]) ∧
        parsePayload params (payload.take pos) es ds true = .ok (cvals, [])) := by
  constructor
  · intro params payload es ds fields missing hval hscan hne hmiss
    obtain ⟨hsplit, hfin⟩ := scanParams_split params payload 0 fields payload.length missing hscan
    have hsum : payload.length = sizesSum fields := by omega
    have hunp : structUnpack fields payload = .ok (unpackFields fields payload) := by
      unfold structUnpack
      rw [if_pos hsum]
    obtain ⟨cvals, hconv, hclen⟩ := mapM_convert_unpacked fields payload
    refine ⟨unpackFields fields payload, cvals, hunp, hconv, ?_⟩
    have hvlen : (unpackFields fields payload).length = fields.length :=
      unpackFields_length fields payload
    obtain ⟨m0, ms, rfl⟩ : ∃ m0 ms, missing = m0 :: ms := by
      cases missing with
      | nil => exact absurd rfl hne
      | cons a b => exact ⟨a, b, rfl⟩
    simp only [parsePayload, hscan, ok_bind]
    rw [if_neg (lt_irrefl payload.length), hunp]
    simp only [ok_bind, hvlen]
    rw [show params.length - fields.length = (m0 :: ms).length by rw [hsplit]; simp]
    rw [show ((unpackFields fields payload ++
        List.replicate (m0 :: ms).length PyValue.none).zip params) =
        (unpackFields fields payload).zip (fields.map (fun f => f.1)) ++
        (List.replicate (m0 :: ms).length PyValue.none).zip (m0 :: ms) from by
      conv_lhs => rw [hsplit]
      rw [List.zip_append (by simp [hvlen])]]
    rw [List.mapM_append, hconv]
    simp only [ok_bind]
    rw [mapM_convert_none (m0 :: ms) hmiss]
    simp only [ok_bind, if_true]
    simp only [pure, Except.pure, ok_bind]
    rw [mapM_enumdefine_id (cvals ++ List.replicate (m0 :: ms).length PyValue.none) params hval
        (by rw [hsplit]; simp [hclen]) es ds]
    simp only [ok_bind]
    rw [if_neg (show ((m0 :: ms).isEmpty = true) -> False by simp)]
    rw [if_neg (lt_irrefl payload.length)]
    rfl
  · intro params payload es ds fields pos hval hscan hlt hpos
    obtain ⟨hsplit, hfin⟩ := scanParams_split params payload 0 fields pos [] hscan
    have hsum : pos = sizesSum fields := by omega
    have htlen : (payload.take pos).length = pos := by
      simp only [List.length_take]
      omega
    have hunp : structUnpack fields (payload.take pos) =
        .ok (unpackFields fields (payload.take pos)) := by
      unfold structUnpack
      rw [if_pos (by omega)]
    obtain ⟨cvals, hconv, hclen⟩ := mapM_convert_unpacked fields (payload.take pos)
    have hvlen := unpackFields_length fields (payload.take pos)
    have hfill : params.length - fields.length = 0 := by
      rw [hsplit]
      simp
    have hzip : ((unpackFields fields (payload.take pos) ++
        List.replicate 0 PyValue.none).zip params) =
        (unpackFields fields (payload.take pos)).zip (fields.map (fun f => f.1)) := by
      rw [List.replicate_zero, List.append_nil]
      conv_lhs => rw [hsplit]
      simp
    have hfinal := mapM_enumdefine_id cvals params hval
      (by rw [hsplit]; simp [hclen]) es ds
    refine ⟨unpackFields fields (payload.take pos), cvals, hunp, hconv, ?_, ?_⟩
    · simp only [parsePayload, hscan, ok_bind]
      rw [if_pos hlt, if_pos hlt, hunp]
      simp only [ok_bind, hvlen]
      rw [hfill, hzip, hconv]
      simp only [ok_bind, if_true]
      rw [hfinal]
      simp only [ok_bind]
      rfl
    · have hscan2 := scanParams_take params payload 0 pos fields hscan hpos (by omega)
      simp only [parsePayload, hscan2, ok_bind]
      rw [if_neg (show pos < (payload.take pos).length -> False by omega), hunp]
      simp only [ok_bind, hvlen]
      rw [hfill, hzip, hconv]
      simp only [ok_bind, if_true]
      rw [hfinal]
      simp only [ok_bind]
      rw [if_neg (show pos < (payload.take pos).length -> False by omega)]
      rfl

/-- Witness for C3: a `uint16,uint16` response decoded from two bytes
(second parameter missing), and a `uint16` response decoded from three
bytes (one trailing byte). -/
theorem C3_length_mismatch_witness :
    (∃ vals cvals,
      structUnpack [(pUint16, 2)] [0x34, 0x12] = .ok vals ∧
      (vals.zip ([(pUint16, 2)].map (fun f => f.1))).mapM
        (fun x => convertValue x.2.format x.1) = .ok cvals ∧
      parsePayload [pUint16, pUint16] [0x34, 0x12] [] [] true =
        .ok (cvals ++ List.replicate [pUint16].length PyValue.none,
             [Warn.missingParams ([pUint16].map (fun p => p.name))])) ∧
    (∃ vals cvals,
      structUnpack [(pUint16, 2)] ([0x34, 0x12, 0xFF].take 2) = .ok vals ∧
      (vals.zip ([(pUint16, 2)].map (fun f => f.1))).mapM
        (fun x => convertValue x.2.format x.1) = .ok cvals ∧
      parsePayload [pUint16] [0x34, 0x12, 0xFF] [] [] true =
        .ok (cvals, [Warn.extraBytes ([0x34, 0x12, 0xFF].length - 2)]) ∧
      parsePayload [pUint16] ([0x34, 0x12, 0xFF].take 2) [] [] true = .ok (cvals, [])) :=
  ⟨C3_length_mismatch.1 [pUint16, pUint16] [0x34, 0x12] [] [] [(pUint16, 2)] [pUint16]
      (by decide) (by decide) (by decide) (by decide),
   C3_length_mismatch.2 [pUint16] [0x34, 0x12, 0xFF] [] [] [(pUint16, 2)] 2
      (by decide) (by decide) (by decide) (by decide)⟩

/-- C8: corrected claim. The serial framer, fed a packed frame optionally preceded
by junk bytes that never contain the 0x5A preamble value, delivers exactly the
original payload; pack rejects payloads longer than 2047 bytes; and every packed
frame carries a header whose CRC-4 over its three bytes is zero. -/
theorem C8_reliable_framer :
    (∀ (data junk : List Nat) (crcflag : Bool),
      data.length ≤ 2047 → (∀ j ∈ junk, j ≠ 0x5A) →
      ∃ fr, pack data crcflag = .ok fr ∧ framerRun [] (junk ++ fr) = [data]) ∧
    (∀ (data : List Nat) (crcflag : Bool), 2047 < data.length →
      pack data crcflag = .error ()) ∧
    (∀ (data : List Nat) (crcflag : Bool) (fr : List Nat),
      pack data crcflag = .ok fr → crc4 ((fr.drop 1).take 2) 4 = 0) := by
  have hmain : ∀ (data : List Nat) (crcflag : Bool), data.length ≤ 2047 →
      crc4 [data.length &&& 0xFF, (((data.length >>> 3) &&& 0xE0) |||
          (if crcflag then 0x10 else 0)) |||
        crc4 [data.length &&& 0xFF, ((data.length >>> 3) &&& 0xE0) |||
          (if crcflag then 0x10 else 0)] 3] 4 = 0 ∧
      ((data.length &&& 0xFF) |||
        ((((((data.length >>> 3) &&& 0xE0) ||| (if crcflag then 0x10 else 0)) |||
          crc4 [data.length &&& 0xFF, ((data.length >>> 3) &&& 0xE0) |||
            (if crcflag then 0x10 else 0)] 3) &&& 0xE0) <<< 3) = data.length) ∧
      ((((data.length >>> 3) &&& 0xE0) ||| (if crcflag then 0x10 else 0)) |||
          crc4 [data.length &&& 0xFF, ((data.length >>> 3) &&& 0xE0) |||
            (if crcflag then 0x10 else 0)] 3) &&& 0x10 = (if crcflag then 0x10 else 0) := by
    intro data crcflag hlen
    exact header_bits_facts data.length (if crcflag then 0x10 else 0) (by omega)
      (by cases crcflag <;> simp)
  refine ⟨?_, ?_, ?_⟩
  · intro data junk crcflag hlen hjunk
    obtain ⟨hcrc, hsize, h16⟩ := hmain data crcflag hlen
    refine ⟨_, pack_ok data crcflag hlen, ?_⟩
    refine framer_junk _ _ data _ hcrc hsize ?_ junk.length junk le_rfl hjunk
    cases crcflag
    · exact Or.inr ⟨by simpa using h16, rfl⟩
    · refine Or.inl ⟨?_, rfl⟩
      intro h0
      rw [h0] at h16
      exact absurd h16 (by decide)
  · intro data crcflag h
    simp only [pack, MAX_PAYLOAD_LENGTH]
    rw [if_pos h]
  · intro data crcflag fr hok
    by_cases hlen : data.length ≤ 2047
    · have hp := pack_ok data crcflag hlen
      rw [hok] at hp
      have hfr := Except.ok.inj hp
      subst hfr
      obtain ⟨hcrc, _, _⟩ := hmain data crcflag hlen
      exact hcrc
    · rw [show pack data crcflag = .error () from by
        simp only [pack, MAX_PAYLOAD_LENGTH]
        rw [if_pos (by omega)]] at hok
      exact absurd hok (by simp)

/-- C8 counterexample to the verbatim claim: junk bytes containing the 0x5A
preamble can form a spurious valid header that swallows the start of the real
frame, so the framer delivers the wrong payload. -/
theorem C8_counterexample :
    pack [0x68] true = .ok [0x5A, 0x01, 0x19, 0x68, 0x1F] ∧
    framerRun [] ([0x5A, 0x02, 0x03] ++ [0x5A, 0x01, 0x19, 0x68, 0x1F]) = [[0x5A, 0x01]] ∧
    ([[0x5A, 0x01]] : List (List Nat)) ≠ [[0x68]] := by
  refine ⟨by decide, ?_, by decide⟩
  rw [show ([0x5A, 0x02, 0x03] ++ [0x5A, 0x01, 0x19, 0x68, 0x1F] : List Nat) =
      [0x5A, 0x02, 0x03, 0x5A, 0x01, 0x19, 0x68, 0x1F] from rfl]
  rw [framerRun_step [] _ (by simp) (by simp)]
  rw [show ([] : List Nat) ++ (([0x5A, 0x02, 0x03, 0x5A, 0x01, 0x19, 0x68, 0x1F] : List Nat).take
      (3 - ([] : List Nat).length)) = [0x5A, 0x02, 0x03] from rfl]
  rw [show ([0x5A, 0x02, 0x03, 0x5A, 0x01, 0x19, 0x68, 0x1F] : List Nat).drop
      (3 - ([] : List Nat).length) = [0x5A, 0x01, 0x19, 0x68, 0x1F] from rfl]
  simp only [show List.findIdx? (fun b => decide (b = PREAMBLE_BYTE))
      ([0x5A, 0x02, 0x03] : List Nat) = some 0 from by decide]
  rw [if_neg (show ¬(crc4 (([0x5A, 0x02, 0x03] : List Nat).drop 1) 4 ≠ 0) by decide)]
  simp only [PAYLOAD_LENGTH_MASK, CRC_PRESENT_FLAG]
  rw [show (([0x5A, 0x02, 0x03] : List Nat).getD 1 0 |||
      ((([0x5A, 0x02, 0x03] : List Nat).getD 2 0 &&& 0b11100000) <<< 3)) = 2 from by decide]
  rw [if_neg (show ¬(([0x5A, 0x01, 0x19, 0x68, 0x1F] : List Nat).length < 2) by decide)]
  rw [if_neg (show ¬(([0x5A, 0x02, 0x03] : List Nat).getD 2 0 &&& 0b00010000 ≠ 0) by decide)]
  rw [show ([0x5A, 0x01, 0x19, 0x68, 0x1F] : List Nat).take 2 = [0x5A, 0x01] from rfl]
  rw [show ([0x5A, 0x01, 0x19, 0x68, 0x1F] : List Nat).drop 2 = [0x19, 0x68, 0x1F] from rfl]
  rw [framerRun_step [] _ (by simp) (by simp)]
  rw [show ([] : List Nat) ++ (([0x19, 0x68, 0x1F] : List Nat).take
      (3 - ([] : List Nat).length)) = [0x19, 0x68, 0x1F] from rfl]
  rw [show ([0x19, 0x68, 0x1F] : List Nat).drop (3 - ([] : List Nat).length) = [] from rfl]
  simp only [show List.findIdx? (fun b => decide (b = PREAMBLE_BYTE))
      ([0x19, 0x68, 0x1F] : List Nat) = Option.none from by decide]
  rw [framerRun_short [] [] (by simp) (by simp)]

/-- Witness for C8 at a concrete payload, junk run and oversized payload. -/
theorem C8_reliable_framer_witness :
    (∃ fr, pack [0x68] true = .ok fr ∧
      framerRun [] ([0xFF, 0x00] ++ fr) = [[0x68]]) ∧
    pack (List.replicate 2048 0) true = .error () ∧
    crc4 ((([0x5A, 0x01, 0x19, 0x68, 0x1F] : List Nat).drop 1).take 2) 4 = 0 :=
  ⟨C8_reliable_framer.1 [0x68] [0xFF, 0x00] true (by decide) (by decide),
   C8_reliable_framer.2.1 (List.replicate 2048 0) true
     (by simp only [List.length_replicate]; omega),
   C8_reliable_framer.2.2 [0x68] true [0x5A, 0x01, 0x19, 0x68, 0x1F] (by decide)⟩


/-- C1: serialize/deserialize roundtrip.  Part one: for every recognized
parameter format and every value in that format's domain (with a positive
datatype length for `byte_array`), packing the value through the
serializer's packer for a validator-free parameter and decoding the wire
bytes through the deserializer's unpackers and converters yields the
original value.  Part two: the bd_addr text "12:34:56:78:90:ab" serializes
to the six wire bytes in reverse order and deserializes back to the same
colon-separated string. -/
theorem C1_roundtrip :
    (∀ (fmt : ParamFormat) (dlen : Nat) (v : PyValue),
      (fmt = .byte_array → 0 < dlen) → inDomain fmt dlen v →
      ∃ wire, packParam (plainParam fmt dlen) v [] [] = .ok wire ∧
        parsePayload [plainParam fmt dlen] wire [] [] true = .ok ([v], [])) ∧
    (packParam (plainParam .bd_addr 0) (.str "12:34:56:78:90:ab") [] [] =
        .ok [0xab, 0x90, 0x78, 0x56, 0x34, 0x12] ∧
      parsePayload [plainParam .bd_addr 0] [0xab, 0x90, 0x78, 0x56, 0x34, 0x12]
        [] [] true = .ok ([.str "12:34:56:78:90:ab"], [])) := by
  constructor
  · intro fmt dlen v hba hdom
    cases fmt with
    | int8 =>
      simp only [inDomain] at hdom
      obtain ⟨i, rfl, h0, h1⟩ := hdom
      have h0x : -(2 : Int) ^ (8 * 1 - 1) ≤ i := by simpa using h0
      have h1x : i < (2 : Int) ^ (8 * 1 - 1) := by simpa using h1
      refine ⟨leBytes 1 (i.emod ((2 : Int) ^ (8 * 1))).toNat, ?_,
        parse_single _ _ _ rfl ?_ ?_ ?_⟩
      · simp only [packParam, plainParam, Serializer.convertEnumDefine, toInt, ok_bind]
        exact packSigned_spec 1 i h0x h1x
      · exact List.length_pos.mp (by rw [leBytes_length]; omega)
      · simp only [unpackerSize, plainParam]
        rw [leBytes_length]
      · simp only [plainParam, unpackField, convertValue,
          unpackSigned_leBytes 1 i (by norm_num) h0x h1x]
    | uint8 =>
      simp only [inDomain] at hdom
      obtain ⟨i, rfl, h0, h1⟩ := hdom
      have h1x : i < (2 : Int) ^ (8 * 1) := by simpa using h1
      refine ⟨leBytes 1 i.toNat, ?_, parse_single _ _ _ rfl ?_ ?_ ?_⟩
      · simp only [packParam, plainParam, Serializer.convertEnumDefine, toInt, ok_bind]
        exact packUnsigned_spec 1 i h0 h1x
      · exact List.length_pos.mp (by rw [leBytes_length]; omega)
      · simp only [unpackerSize, plainParam]
        rw [leBytes_length]
      · simp only [plainParam, unpackField, convertValue,
          unpackUnsigned_leBytes 1 i h0 h1x]
    | int16 =>
      simp only [inDomain] at hdom
      obtain ⟨i, rfl, h0, h1⟩ := hdom
      have h0x : -(2 : Int) ^ (8 * 2 - 1) ≤ i := by simpa using h0
      have h1x : i < (2 : Int) ^ (8 * 2 - 1) := by simpa using h1
      refine ⟨leBytes 2 (i.emod ((2 : Int) ^ (8 * 2))).toNat, ?_,
        parse_single _ _ _ rfl ?_ ?_ ?_⟩
      · simp only [packParam, plainParam, Serializer.convertEnumDefine, toInt, ok_bind]
        exact packSigned_spec 2 i h0x h1x
      · exact List.length_pos.mp (by rw [leBytes_length]; omega)
      · simp only [unpackerSize, plainParam]
        rw [leBytes_length]
      · simp only [plainParam, unpackField, convertValue,
          unpackSigned_leBytes 2 i (by norm_num) h0x h1x]
    | uint16 =>
      simp only [inDomain] at hdom
      obtain ⟨i, rfl, h0, h1⟩ := hdom
      have h1x : i < (2 : Int) ^ (8 * 2) := by simpa using h1
      refine ⟨leBytes 2 i.toNat, ?_, parse_single _ _ _ rfl ?_ ?_ ?_⟩
      · simp only [packParam, plainParam, Serializer.convertEnumDefine, toInt, ok_bind]
        exact packUnsigned_spec 2 i h0 h1x
      · exact List.length_pos.mp (by rw [leBytes_length]; omega)
      · simp only [unpackerSize, plainParam]
        rw [leBytes_length]
      · simp only [plainParam, unpackField, convertValue,
          unpackUnsigned_leBytes 2 i h0 h1x]
    | int32 =>
      simp only [inDomain] at hdom
      obtain ⟨i, rfl, h0, h1⟩ := hdom
      have h0x : -(2 : Int) ^ (8 * 4 - 1) ≤ i := by simpa using h0
      have h1x : i < (2 : Int) ^ (8 * 4 - 1) := by simpa using h1
      refine ⟨leBytes 4 (i.emod ((2 : Int) ^ (8 * 4))).toNat, ?_,
        parse_single _ _ _ rfl ?_ ?_ ?_⟩
      · simp only [packParam, plainParam, Serializer.convertEnumDefine, toInt, ok_bind]
        exact packSigned_spec 4 i h0x h1x
      · exact List.length_pos.mp (by rw [leBytes_length]; omega)
      · simp only [unpackerSize, plainParam]
        rw [leBytes_length]
      · simp only [plainParam, unpackField, convertValue,
          unpackSigned_leBytes 4 i (by norm_num) h0x h1x]
    | uint32 =>
      simp only [inDomain] at hdom
      obtain ⟨i, rfl, h0, h1⟩ := hdom
      have h1x : i < (2 : Int) ^ (8 * 4) := by simpa using h1
      refine ⟨leBytes 4 i.toNat, ?_, parse_single _ _ _ rfl ?_ ?_ ?_⟩
      · simp only [packParam, plainParam, Serializer.convertEnumDefine, toInt, ok_bind]
        exact packUnsigned_spec 4 i h0 h1x
      · exact List.length_pos.mp (by rw [leBytes_length]; omega)
      · simp only [unpackerSize, plainParam]
        rw [leBytes_length]
      · simp only [plainParam, unpackField, convertValue,
          unpackUnsigned_leBytes 4 i h0 h1x]
    | int64 =>
      simp only [inDomain] at hdom
      obtain ⟨i, rfl, h0, h1⟩ := hdom
      have h0x : -(2 : Int) ^ (8 * 8 - 1) ≤ i := by simpa using h0
      have h1x : i < (2 : Int) ^ (8 * 8 - 1) := by simpa using h1
      refine ⟨leBytes 8 (i.emod ((2 : Int) ^ (8 * 8))).toNat, ?_,
        parse_single _ _ _ rfl ?_ ?_ ?_⟩
      · simp only [packParam, plainParam, Serializer.convertEnumDefine, toInt, ok_bind]
        exact packSigned_spec 8 i h0x h1x
      · exact List.length_pos.mp (by rw [leBytes_length]; omega)
      · simp only [unpackerSize, plainParam]
        rw [leBytes_length]
      · simp only [plainParam, unpackField, convertValue,
          unpackSigned_leBytes 8 i (by norm_num) h0x h1x]
    | uint64 =>
      simp only [inDomain] at hdom
      obtain ⟨i, rfl, h0, h1⟩ := hdom
      have h1x : i < (2 : Int) ^ (8 * 8) := by simpa using h1
      refine ⟨leBytes 8 i.toNat, ?_, parse_single _ _ _ rfl ?_ ?_ ?_⟩
      · simp only [packParam, plainParam, Serializer.convertEnumDefine, toInt, ok_bind]
        exact packUnsigned_spec 8 i h0 h1x
      · exact List.length_pos.mp (by rw [leBytes_length]; omega)
      · simp only [unpackerSize, plainParam]
        rw [leBytes_length]
      · simp only [plainParam, unpackField, convertValue,
          unpackUnsigned_leBytes 8 i h0 h1x]
    | uint8array =>
      simp only [inDomain] at hdom
      obtain ⟨bs, rfl, hlen⟩ := hdom
      refine ⟨bs.length :: bs, ?_, parse_single _ _ _ rfl (by simp) ?_ ?_⟩
      · simp only [packParam, plainParam, to_bytes, ok_bind]
        rw [if_pos (by omega)]
      · simp only [unpackerSize, plainParam]
        rw [head?_take (bs.length :: bs) 2 (by omega)]
        simp only [List.head?_cons]
        rw [show (1 + bs.length) = (bs.length :: bs).length from by
          rw [List.length_cons]; omega]
      · simp only [plainParam, unpackField, convertValue]
        rfl
    | uint16array =>
      simp only [inDomain] at hdom
      obtain ⟨bs, rfl, hlen⟩ := hdom
      have hl2 : (leBytes 2 bs.length).length = 2 := leBytes_length 2 bs.length
      refine ⟨leBytes 2 bs.length ++ bs, ?_, parse_single _ _ _ rfl ?_ ?_ ?_⟩
      · simp only [packParam, plainParam, to_bytes, ok_bind]
        rw [if_pos (by omega)]
      · exact List.length_pos.mp (by rw [List.length_append, hl2]; omega)
      · simp only [unpackerSize, plainParam]
        rw [List.take_left' hl2]
        rw [if_neg (by rw [hl2]; omega)]
        rw [List.take_of_length_le (by rw [hl2])]
        rw [leValue_leBytes 2 bs.length (by norm_num; omega)]
        rw [show (2 + bs.length) = (leBytes 2 bs.length ++ bs).length from by
          rw [List.length_append, hl2]]
      · simp only [plainParam, unpackField, convertValue]
        rw [List.drop_left' hl2]
    | bd_addr =>
      simp only [inDomain] at hdom
      obtain ⟨ts, rfl, hlen, hmem⟩ := hdom
      refine ⟨ts.reverse, ?_, parse_single _ _ _ rfl ?_ ?_ ?_⟩
      · simp only [packParam, plainParam]
        rw [show to_bytes (.str (addrText ts)) =
            .ok ((joinSep ':' (ts.map hexPair)).map Char.toNat) from
          to_bytes_chars _ (addr_chars_lt ts hmem)]
        simp only [ok_bind]
        rw [addr_filter_unhex ts hmem]
        simp only [ok_bind]
        rw [padTrunc_self 6 ts.reverse (by rw [List.length_reverse]; omega)]
      · exact List.length_pos.mp (by rw [List.length_reverse]; omega)
      · simp only [unpackerSize, plainParam]
        rw [show ts.reverse.length = 6 from by rw [List.length_reverse]; omega]
      · simp only [plainParam, unpackField, convertValue, List.reverse_reverse]
        rfl
    | hw_addr =>
      simp only [inDomain] at hdom
      obtain ⟨ts, rfl, hlen, hmem⟩ := hdom
      refine ⟨ts, ?_, parse_single _ _ _ rfl ?_ ?_ ?_⟩
      · simp only [packParam, plainParam]
        rw [show to_bytes (.str (addrText ts)) =
            .ok ((joinSep ':' (ts.map hexPair)).map Char.toNat) from
          to_bytes_chars _ (addr_chars_lt ts hmem)]
        simp only [ok_bind]
        rw [addr_filter_unhex ts hmem]
        simp only [ok_bind]
        rw [padTrunc_self 6 ts hlen]
      · exact List.length_pos.mp (by omega)
      · simp only [unpackerSize, plainParam]
        rw [hlen]
      · simp only [plainParam, unpackField, convertValue]
        rfl
    | ipv4 =>
      simp only [inDomain] at hdom
      obtain ⟨ts, rfl, hlen, hmem⟩ := hdom
      obtain ⟨ns, hns1, hns2⟩ := ipv4_pack_bytes ts hmem
      have hsplit : pySplit '.' (joinSep '.' (ts.map decChars)) = ts.map decChars :=
        pySplit_joinSep '.' (ts.map decChars)
          (List.length_pos.mp (by rw [List.length_map]; omega))
          (fun ch hch => by
            obtain ⟨t, ht, rfl⟩ := List.mem_map.mp hch
            exact ipv4_chars_not_dot t)
      refine ⟨ts, ?_, parse_single _ _ _ rfl ?_ ?_ ?_⟩
      · simp only [packParam, plainParam, ipv4Text]
        rw [hsplit, hns1]
        simp only [ok_bind]
        rw [hns2]
        simp only [ok_bind]
        rw [padTrunc_self 4 ts hlen]
      · exact List.length_pos.mp (by omega)
      · simp only [unpackerSize, plainParam]
        rw [hlen]
      · simp only [plainParam, unpackField, convertValue]
        rfl
    | uuid_128 =>
      simp only [inDomain] at hdom
      obtain ⟨bs, rfl, hlen⟩ := hdom
      refine ⟨bs, ?_, parse_single _ _ _ rfl ?_ ?_ ?_⟩
      · simp only [packParam, plainParam, to_bytes, ok_bind]
        rw [padTrunc_self 16 bs hlen]
      · exact List.length_pos.mp (by omega)
      · simp only [unpackerSize, plainParam]
        rw [hlen]
      · simp only [plainParam, unpackField, convertValue]
    | aes_key_128 =>
      simp only [inDomain] at hdom
      obtain ⟨bs, rfl, hlen⟩ := hdom
      refine ⟨bs, ?_, parse_single _ _ _ rfl ?_ ?_ ?_⟩
      · simp only [packParam, plainParam, to_bytes, ok_bind]
        rw [padTrunc_self 16 bs hlen]
      · exact List.length_pos.mp (by omega)
      · simp only [unpackerSize, plainParam]
        rw [hlen]
      · simp only [plainParam, unpackField, convertValue]
    | sl_bt_uuid_64_t =>
      simp only [inDomain] at hdom
      obtain ⟨bs, rfl, hlen⟩ := hdom
      refine ⟨bs, ?_, parse_single _ _ _ rfl ?_ ?_ ?_⟩
      · simp only [packParam, plainParam, to_bytes, ok_bind]
        rw [padTrunc_self 8 bs hlen]
      · exact List.length_pos.mp (by omega)
      · simp only [unpackerSize, plainParam]
        rw [hlen]
      · simp only [plainParam, unpackField, convertValue]
    | sl_bt_uuid_16_t =>
      simp only [inDomain] at hdom
      obtain ⟨bs, rfl, hlen⟩ := hdom
      refine ⟨bs, ?_, parse_single _ _ _ rfl ?_ ?_ ?_⟩
      · simp only [packParam, plainParam, to_bytes, ok_bind]
        rw [padTrunc_self 2 bs hlen]
      · exact List.length_pos.mp (by omega)
      · simp only [unpackerSize, plainParam]
        rw [hlen]
      · simp only [plainParam, unpackField, convertValue]
    | byte_array =>
      simp only [inDomain] at hdom
      obtain ⟨bs, rfl, hlen⟩ := hdom
      have hdl : 0 < dlen := hba rfl
      refine ⟨bs, ?_, parse_single _ _ _ rfl ?_ ?_ ?_⟩
      · simp only [packParam, plainParam, to_bytes, ok_bind]
        rw [padTrunc_self dlen bs hlen]
      · exact List.length_pos.mp (by omega)
      · simp only [unpackerSize, plainParam]
        rw [hlen]
      · simp only [plainParam, unpackField, convertValue]
  · constructor
    · decide
    · decide

/-- Witness for C1: the uint16 value 0x1234 through the general roundtrip,
and the concrete bd_addr example. -/
theorem C1_roundtrip_witness :
    (∃ wire, packParam (plainParam .uint16 0) (.int 0x1234) [] [] = .ok wire ∧
      parsePayload [plainParam .uint16 0] wire [] [] true = .ok ([.int 0x1234], [])) ∧
    packParam (plainParam .bd_addr 0) (.str "12:34:56:78:90:ab") [] [] =
      .ok [0xab, 0x90, 0x78, 0x56, 0x34, 0x12] :=
  ⟨C1_roundtrip.1 .uint16 0 (.int 0x1234) (fun h => absurd h (by decide))
    (by exact ⟨0x1234, rfl, by norm_num, by norm_num⟩),
   C1_roundtrip.2.1⟩

end BGApi
